import Mathlib

/-!
Shallow embedding of the sanctuary_mcp_bridge core (schemas.py, db.py,
patterns.py) and proofs about it.

Modelling conventions:
- Python floats are represented as rationals.  Every IEEE double is a dyadic
  rational, hence has a terminating decimal expansion; the predicate
  `IsDecimal` captures exactly the rationals with a terminating decimal
  expansion and is used wherever a value must round-trip through the JSON
  text encoding.
- Python `datetime` objects are naive UTC instants, represented by their
  calendar components (`DateTime`).  `isoformat` and `fromIso?` model
  `datetime.isoformat()` and `datetime.fromisoformat()` on naive datetimes
  (time-zone offsets and the short date-only / minute-precision input forms
  are outside the model).
- The SQLite tables are lists of rows whose TEXT columns are Lean `String`s;
  SQLite's BINARY collation on ASCII text is byte-wise comparison, modelled
  by `memLt`.
- `json.dumps` / `json.loads` are modelled by `dumpVal` / `jsonLoads` over
  the `PyVal` tree (numbers conflate int and float and are printed as exact
  terminating decimals; `NaN`/`Infinity` literals and `\u` surrogate pairs
  are outside the model).
- Python exceptions are the `PyErr` type; pydantic validation failures are
  `PyErr.validation`.
-/

/-- Decimal digit to character. -/
def digitChar : Nat → Char
  | 0 => '0'
  | 1 => '1'
  | 2 => '2'
  | 3 => '3'
  | 4 => '4'
  | 5 => '5'
  | 6 => '6'
  | 7 => '7'
  | 8 => '8'
  | _ => '9'

/-- Fixed-width decimal rendering, most significant digit first. -/
def pad : Nat → Nat → List Char
  | 0, _ => []
  | k + 1, n => digitChar (n / 10 ^ k) :: pad k (n % 10 ^ k)

/-- Tests whether a character is an ASCII decimal digit. -/
def isDigitChar (c : Char) : Bool := 48 ≤ c.toNat && c.toNat ≤ 57

/-- Reads one decimal digit. -/
def readDigit (c : Char) : Option Nat :=
  if isDigitChar c then some (c.toNat - 48) else none

/-- Reads exactly `k` decimal digits off the front of the input. -/
def readFixed : Nat → List Char → Option (Nat × List Char)
  | 0, cs => some (0, cs)
  | _ + 1, [] => none
  | k + 1, c :: cs =>
    match readDigit c, readFixed k cs with
    | some d, some (m, rest) => some (d * 10 ^ k + m, rest)
    | _, _ => none

/-- Value of a list of decimal digit characters. -/
def decodeDigits (cs : List Char) : Nat :=
  cs.foldl (fun a c => 10 * a + (c.toNat - 48)) 0

/-- Number of decimal digits of a natural number (1 for 0). -/
def digitLen (n : Nat) : Nat := Nat.log 10 n + 1

/-- Decimal rendering of a natural number without leading zeros. -/
def natRepr (n : Nat) : List Char := pad (digitLen n) n

/-- Splits the longest prefix of decimal digits off the input. -/
def takeDigits : List Char → List Char × List Char
  | [] => ([], [])
  | c :: cs =>
    if isDigitChar c then
      let p := takeDigits cs
      (c :: p.1, p.2)
    else ([], c :: cs)

/-- Holds when the input does not start with a decimal digit. -/
def headNotDigit : List Char → Bool
  | [] => true
  | c :: _ => !isDigitChar c

/-- Holds when the input cannot extend a JSON number token: it does not start
with a digit, a decimal point, or an exponent marker. -/
def headDelim : List Char → Bool
  | [] => true
  | c :: _ => !(isDigitChar c || c = '.' || c = 'e' || c = 'E')

/-- Byte-wise (memcmp) strict comparison of ASCII character lists; this is
SQLite's BINARY collation, under which the stored ISO timestamps are
compared by the `>=` and `<=` SQL operators. -/
def memLt : List Char → List Char → Bool
  | _, [] => false
  | [], _ :: _ => true
  | a :: as, b :: bs =>
    if a.toNat < b.toNat then true
    else if b.toNat < a.toNat then false
    else memLt as bs

/-- SQLite TEXT comparison `a >= b` under BINARY collation. -/
def strGe (a b : String) : Bool := !(memLt a.data b.data)

/-- A naive (UTC, offset-free) Python `datetime`, by calendar components. -/
structure DateTime where
  year : Nat
  month : Nat
  day : Nat
  hour : Nat
  minute : Nat
  second : Nat
  usec : Nat
deriving DecidableEq, Repr

/-- Gregorian leap-year test. -/
def isLeap (y : Nat) : Bool := y % 4 == 0 && (y % 100 != 0 || y % 400 == 0)

/-- Number of days in a month. -/
def daysInMonth (y m : Nat) : Nat :=
  if m = 2 then (if isLeap y then 29 else 28)
  else if m = 4 ∨ m = 6 ∨ m = 9 ∨ m = 11 then 30
  else 31

/-- The invariants Python's `datetime` constructor enforces (MINYEAR = 1,
MAXYEAR = 9999, calendar-valid day, in-range time components). -/
def DateTime.Valid (d : DateTime) : Prop :=
  1 ≤ d.year ∧ d.year ≤ 9999 ∧ 1 ≤ d.month ∧ d.month ≤ 12 ∧
  1 ≤ d.day ∧ d.day ≤ daysInMonth d.year d.month ∧
  d.hour ≤ 23 ∧ d.minute ≤ 59 ∧ d.second ≤ 59 ∧ d.usec ≤ 999999

instance (d : DateTime) : Decidable d.Valid := by
  unfold DateTime.Valid; infer_instance

/-- Chronological strict order of naive datetimes: lexicographic on the
components. -/
def DateTime.lt (a b : DateTime) : Prop :=
  a.year < b.year ∨ (a.year = b.year ∧ (a.month < b.month ∨ (a.month = b.month ∧
  (a.day < b.day ∨ (a.day = b.day ∧ (a.hour < b.hour ∨ (a.hour = b.hour ∧
  (a.minute < b.minute ∨ (a.minute = b.minute ∧ (a.second < b.second ∨
  (a.second = b.second ∧ a.usec < b.usec)))))))))))

instance (a b : DateTime) : Decidable (DateTime.lt a b) := by
  unfold DateTime.lt; infer_instance

/-- Chronological order of naive datetimes. -/
def DateTime.le (a b : DateTime) : Prop := DateTime.lt a b ∨ a = b

instance (a b : DateTime) : Decidable (DateTime.le a b) := by
  unfold DateTime.le; infer_instance

/-- Character list of `datetime.isoformat()`: `YYYY-MM-DDTHH:MM:SS` with a
`.ffffff` suffix exactly when the microsecond component is non-zero. -/
def isoChars (d : DateTime) : List Char :=
  pad 4 d.year ++ '-' :: (pad 2 d.month ++ '-' :: (pad 2 d.day ++
  'T' :: (pad 2 d.hour ++ ':' :: (pad 2 d.minute ++ ':' :: (pad 2 d.second ++
  (if d.usec = 0 then [] else '.' :: pad 6 d.usec))))))

/-- Models `datetime.isoformat()` on a naive datetime. -/
def isoformat (d : DateTime) : String := String.mk (isoChars d)

/-- Expects a given literal character at the head of the input. -/
def expectChar (c : Char) : List Char → Option (List Char)
  | x :: xs => if x = c then some xs else none
  | [] => none

/-- Finishes parsing an ISO timestamp after the seconds field: either the end
of the string or a fractional-second suffix of one to six digits, followed by
the range validation Python's datetime constructor performs. -/
def finishIso (y mo dd h mi s : Nat) (rest : List Char) : Option DateTime :=
  let mk : Nat → Option DateTime := fun us =>
    let dt : DateTime := ⟨y, mo, dd, h, mi, s, us⟩
    if dt.Valid then some dt else none
  match rest with
  | [] => mk 0
  | '.' :: more =>
    let p := takeDigits more
    if p.2 = [] ∧ 1 ≤ p.1.length ∧ p.1.length ≤ 6 then
      mk (decodeDigits p.1 * 10 ^ (6 - p.1.length))
    else none
  | _ => none

/-- Parses the character form of a naive ISO timestamp. -/
def fromIsoChars (cs : List Char) : Option DateTime := do
  let (y, cs) ← readFixed 4 cs
  let cs ← expectChar '-' cs
  let (mo, cs) ← readFixed 2 cs
  let cs ← expectChar '-' cs
  let (dd, cs) ← readFixed 2 cs
  let cs ← (match cs with
            | c :: rest => if c = 'T' ∨ c = ' ' then some rest else none
            | [] => none)
  let (h, cs) ← readFixed 2 cs
  let cs ← expectChar ':' cs
  let (mi, cs) ← readFixed 2 cs
  let cs ← expectChar ':' cs
  let (s, cs) ← readFixed 2 cs
  finishIso y mo dd h mi s cs

/-- Models `datetime.fromisoformat` on naive timestamps (returns `none` where
Python raises `ValueError`). -/
def fromIso? (s : String) : Option DateTime := fromIsoChars s.data

/-- Python exception classes relevant to the embedded code. `validation` is
pydantic's `ValidationError`; `valueErr` a bare `ValueError`; `typeErr` a
`TypeError`; `range` the error `datetime.utcfromtimestamp` raises on an
epoch offset outside the representable year range. -/
inductive PyErr where
  | validation
  | valueErr
  | typeErr
  | range
deriving DecidableEq, Repr

/-- Civil-calendar date from a day count relative to 1970-01-01 (standard
days-to-civil algorithm, using truncated integer division; only invoked on
day counts that were already range-checked, where all operands are
non-negative). -/
def civilFromDays (z : Int) : Int × Int × Int :=
  let zz := z + 719468
  let era := Int.tdiv (if 0 ≤ zz then zz else zz - 146096) 146097
  let doe := zz - era * 146097
  let yoe := Int.tdiv (doe - Int.tdiv doe 1460 + Int.tdiv doe 36524 - Int.tdiv doe 146096) 365
  let y := yoe + era * 400
  let doy := doe - (365 * yoe + Int.tdiv yoe 4 - Int.tdiv yoe 100)
  let mp := Int.tdiv (5 * doy + 2) 153
  let dd := doy - Int.tdiv (153 * mp + 2) 5 + 1
  let m := mp + (if mp < 10 then 3 else -9)
  (y + (if m ≤ 2 then 1 else 0), m, dd)

/-- Smallest representable epoch-second offset: 0001-01-01T00:00:00. -/
def MINEPOCH : Int := -62135596800

/-- Largest representable epoch-second offset: 9999-12-31T23:59:59. -/
def MAXEPOCH : Int := 253402300799

/-- Builds the naive UTC datetime denoted by a count of microseconds since
the epoch, failing where Python's `datetime.utcfromtimestamp` raises because
the instant falls outside years 1..9999. -/
def dtFromEpochUsec (t : Int) : Except PyErr DateTime :=
  let sec := Int.ediv t 1000000
  let us := Int.emod t 1000000
  if sec < MINEPOCH ∨ MAXEPOCH < sec then .error .range
  else
    let days := Int.ediv sec 86400
    let rem := Int.emod sec 86400
    let c := civilFromDays days
    .ok ⟨c.1.toNat, c.2.1.toNat, c.2.2.toNat, (Int.ediv rem 3600).toNat,
         (Int.emod (Int.ediv rem 60) 60).toNat, (Int.emod rem 60).toNat, us.toNat⟩

/-- Rounds a rational to the nearest integer, ties to even (the rounding
CPython applies when converting a float timestamp to whole microseconds). -/
def roundHalfEvenQ (q : ℚ) : Int :=
  let f : Int := ⌊q⌋
  let r : ℚ := q - (f : ℚ)
  if r < 1 / 2 then f
  else if 1 / 2 < r then f + 1
  else if f % 2 = 0 then f else f + 1

/-- Models `datetime.utcfromtimestamp` on an integer argument. -/
def utcfromtimestampInt (n : Int) : Except PyErr DateTime :=
  dtFromEpochUsec (n * 1000000)

/-- Models `datetime.utcfromtimestamp` on a float argument. -/
def utcfromtimestampFloat (q : ℚ) : Except PyErr DateTime :=
  dtFromEpochUsec (roundHalfEvenQ (q * 1000000))

/-- JSON / Python value tree as produced by `json.loads` (numbers conflate
int and float and are exact rationals). -/
inductive PyVal where
  | vnull : PyVal
  | vbool (b : Bool) : PyVal
  | vnum (q : ℚ) : PyVal
  | vstr (s : String) : PyVal
  | vlist (xs : List PyVal) : PyVal
  | vdict (kvs : List (String × PyVal)) : PyVal
deriving Repr

/-- Hexadecimal digit to character (lower case, as `json.dumps` emits). -/
def hexDigit : Nat → Char
  | 0 => '0'
  | 1 => '1'
  | 2 => '2'
  | 3 => '3'
  | 4 => '4'
  | 5 => '5'
  | 6 => '6'
  | 7 => '7'
  | 8 => '8'
  | 9 => '9'
  | 10 => 'a'
  | 11 => 'b'
  | 12 => 'c'
  | 13 => 'd'
  | 14 => 'e'
  | _ => 'f'

/-- JSON string escaping of one character, as `json.dumps(...,
ensure_ascii=False)` performs it. -/
def escapeChar (c : Char) : List Char :=
  if c = '"' then ['\\', '"']
  else if c = '\\' then ['\\', '\\']
  else if c.toNat = 8 then ['\\', 'b']
  else if c.toNat = 9 then ['\\', 't']
  else if c.toNat = 10 then ['\\', 'n']
  else if c.toNat = 12 then ['\\', 'f']
  else if c.toNat = 13 then ['\\', 'r']
  else if c.toNat < 32 then
    ['\\', 'u', '0', '0', hexDigit (c.toNat / 16), hexDigit (c.toNat % 16)]
  else [c]

/-- JSON string escaping of a character list. -/
def escapeStr : List Char → List Char
  | [] => []
  | c :: cs => escapeChar c ++ escapeStr cs

/-- A rational has a terminating decimal expansion.  Every Python float is a
dyadic rational `m / 2^t` with `t ≤ 2^t ≤ den`, so every float value
satisfies this predicate; it is stated with the exponent `q.den`, which
always suffices when any exponent does. -/
def IsDecimal (q : ℚ) : Prop := (q * (10 : ℚ) ^ q.den).den = 1

instance (q : ℚ) : Decidable (IsDecimal q) := by
  unfold IsDecimal; infer_instance

/-- Smallest exponent `k ≤ q.den` for which `q * 10^k` is an integer, when
one exists. -/
def decExp (q : ℚ) : Option Nat :=
  (List.range (q.den + 1)).find? fun k => (q * (10 : ℚ) ^ k).den == 1

/-- Decimal text of the non-negative value `m / 10^k`. -/
def dumpNatFrac (m k : Nat) : List Char :=
  match k with
  | 0 => natRepr m
  | k + 1 => natRepr (m / 10 ^ (k + 1)) ++ '.' :: pad (k + 1) (m % 10 ^ (k + 1))

/-- JSON text of a number: the exact terminating decimal expansion when one
exists (every float value has one; the fallback is unreachable for such
values). -/
def dumpNum (q : ℚ) : List Char :=
  match decExp |q| with
  | some k => (if q < 0 then ['-'] else []) ++ dumpNatFrac ((|q| * (10 : ℚ) ^ k).num.toNat) k
  | none => ['0']

mutual

/-- Models `json.dumps(..., ensure_ascii=False)` with the default
separators. -/
def dumpVal : PyVal → List Char
  | .vnull => ['n', 'u', 'l', 'l']
  | .vbool true => ['t', 'r', 'u', 'e']
  | .vbool false => ['f', 'a', 'l', 's', 'e']
  | .vnum q => dumpNum q
  | .vstr s => '"' :: (escapeStr s.data ++ ['"'])
  | .vlist xs => '[' :: (dumpElems xs ++ [']'])
  | .vdict kvs => '\x7b' :: (dumpMems kvs ++ ['\x7d'])

/-- Array elements joined by a ", " separator. -/
def dumpElems : List PyVal → List Char
  | [] => []
  | [x] => dumpVal x
  | x :: y :: t => dumpVal x ++ ',' :: ' ' :: dumpElems (y :: t)

/-- Object members joined by a ", " separator, keys rendered as JSON
strings followed by ": ". -/
def dumpMems : List (String × PyVal) → List Char
  | [] => []
  | [(k, v)] => '"' :: (escapeStr k.data ++ '"' :: ':' :: ' ' :: dumpVal v)
  | (k, v) :: m :: t =>
    ('"' :: (escapeStr k.data ++ '"' :: ':' :: ' ' :: dumpVal v)) ++
      ',' :: ' ' :: dumpMems (m :: t)

end

/-- JSON whitespace. -/
def isWs (c : Char) : Bool := c = ' ' || c = '\t' || c = '\n' || c = '\r'

/-- Drops leading JSON whitespace. -/
def skipWs : List Char → List Char
  | c :: cs => if isWs c then skipWs cs else c :: cs
  | [] => []

/-- Hexadecimal digit value. -/
def hexVal (c : Char) : Option Nat :=
  if 48 ≤ c.toNat ∧ c.toNat ≤ 57 then some (c.toNat - 48)
  else if 97 ≤ c.toNat ∧ c.toNat ≤ 102 then some (c.toNat - 87)
  else if 65 ≤ c.toNat ∧ c.toNat ≤ 70 then some (c.toNat - 55)
  else none

/-- Decodes a single-character JSON escape. -/
def escDecode (c : Char) : Option Char :=
  if c = '"' then some '"'
  else if c = '\\' then some '\\'
  else if c = '/' then some '/'
  else if c = 'b' then some (Char.ofNat 8)
  else if c = 't' then some (Char.ofNat 9)
  else if c = 'n' then some (Char.ofNat 10)
  else if c = 'f' then some (Char.ofNat 12)
  else if c = 'r' then some (Char.ofNat 13)
  else none

/-- Parses a JSON string body after the opening quote, returning the decoded
characters and the input following the closing quote (surrogate `\u`
escapes are outside the model). -/
def parseStrAux : List Char → Option (List Char × List Char)
  | [] => none
  | c :: cs =>
    if c = '"' then some ([], cs)
    else if c = '\\' then
      match cs with
      | [] => none
      | e :: cs2 =>
        if e = 'u' then
          match cs2 with
          | h1 :: h2 :: h3 :: h4 :: cs3 =>
            match hexVal h1, hexVal h2, hexVal h3, hexVal h4 with
            | some a, some b, some c3, some d4 =>
              let n := ((a * 16 + b) * 16 + c3) * 16 + d4
              if 0xD800 ≤ n ∧ n ≤ 0xDFFF then none
              else
                match parseStrAux cs3 with
                | some (s, r) => some (Char.ofNat n :: s, r)
                | none => none
            | _, _, _, _ => none
          | _ => none
        else
          match escDecode e with
          | some c2 =>
            match parseStrAux cs2 with
            | some (s, r) => some (c2 :: s, r)
            | none => none
          | none => none
    else if c.toNat < 32 then none
    else
      match parseStrAux cs with
      | some (s, r) => some (c :: s, r)
      | none => none

/-- Parses an optional JSON fractional part, returning its value. -/
def parseFrac : List Char → Option (ℚ × List Char)
  | [] => some (0, [])
  | c :: rest =>
    if c = '.' then
      let p := takeDigits rest
      if p.1 = [] then none
      else some ((decodeDigits p.1 : ℚ) / (10 : ℚ) ^ p.1.length, p.2)
    else some (0, c :: rest)

/-- Parses an optional JSON exponent part, returning its multiplier. -/
def parseExp : List Char → Option (ℚ × List Char)
  | c :: rest =>
    if c = 'e' ∨ c = 'E' then
      let sp : Int × List Char :=
        match rest with
        | '+' :: r => (1, r)
        | '-' :: r => (-1, r)
        | r => (1, r)
      let p := takeDigits sp.2
      if p.1 = [] then none
      else some ((10 : ℚ) ^ (sp.1 * (decodeDigits p.1 : Int)), p.2)
    else some (1, c :: rest)
  | [] => some (1, [])

/-- Parses a JSON number. -/
def parseNum (cs : List Char) : Option (ℚ × List Char) :=
  let sp : Bool × List Char :=
    match cs with
    | c :: rest => if c = '-' then (true, rest) else (false, c :: rest)
    | [] => (false, [])
  let ip := takeDigits sp.2
  if ip.1 = [] then none
  else
    match parseFrac ip.2 with
    | none => none
    | some (f, cs3) =>
      match parseExp cs3 with
      | none => none
      | some (e, cs4) =>
        let v := ((decodeDigits ip.1 : ℚ) + f) * e
        some (if sp.1 then -v else v, cs4)

mutual

/-- Fuel-bounded recursive-descent JSON value parser (the fuel only bounds
nesting and sequence length; `jsonLoads` supplies enough for any input).
The head-character dispatch mirrors `json.loads`: a named literal, a string,
an array, an object, else a number.  An empty array or object body is
handled inline; any other input reaching those positions fails, exactly as
the item/member loops would fail on it. -/
def parseVal : Nat → List Char → Option (PyVal × List Char)
  | 0, _ => none
  | fuel + 1, cs =>
    match skipWs cs with
    | [] => none
    | c :: rest =>
      if c = 'n' then
        match rest with
        | 'u' :: 'l' :: 'l' :: r => some (.vnull, r)
        | _ => none
      else if c = 't' then
        match rest with
        | 'r' :: 'u' :: 'e' :: r => some (.vbool true, r)
        | _ => none
      else if c = 'f' then
        match rest with
        | 'a' :: 'l' :: 's' :: 'e' :: r => some (.vbool false, r)
        | _ => none
      else if c = '"' then
        match parseStrAux rest with
        | some (s, r) => some (.vstr (String.mk s), r)
        | none => none
      else if c = '[' then
        match skipWs rest with
        | [] => none
        | c2 :: r2 =>
          if c2 = ']' then some (.vlist [], r2)
          else
            match parseItems fuel (c2 :: r2) with
            | some (xs, r) => some (.vlist xs, r)
            | none => none
      else if c = '\x7b' then
        match skipWs rest with
        | [] => none
        | c2 :: r2 =>
          if c2 = '\x7d' then some (.vdict [], r2)
          else
            match parseMems fuel (c2 :: r2) with
            | some (kvs, r) => some (.vdict kvs, r)
            | none => none
      else
        match parseNum (c :: rest) with
        | some (q, r) => some (.vnum q, r)
        | none => none

/-- Parses one or more array items and the closing bracket. -/
def parseItems : Nat → List Char → Option (List PyVal × List Char)
  | 0, _ => none
  | fuel + 1, cs =>
    match parseVal fuel cs with
    | none => none
    | some (v, r) =>
      match skipWs r with
      | [] => none
      | c :: r2 =>
        if c = ',' then
          match parseItems fuel r2 with
          | some (xs, r3) => some (v :: xs, r3)
          | none => none
        else if c = ']' then some ([v], r2)
        else none

/-- Parses one or more object members and the closing brace. -/
def parseMems : Nat → List Char → Option (List (String × PyVal) × List Char)
  | 0, _ => none
  | fuel + 1, cs =>
    match skipWs cs with
    | [] => none
    | c0 :: rest =>
      if c0 = '"' then
        match parseStrAux rest with
        | some (k, r1) =>
          (match skipWs r1 with
           | [] => none
           | c2 :: r2 =>
             if c2 = ':' then
               match parseVal fuel r2 with
               | none => none
               | some (v, r3) =>
                 match skipWs r3 with
                 | [] => none
                 | c3 :: r4 =>
                   if c3 = ',' then
                     match parseMems fuel r4 with
                     | some (kvs, r5) => some ((String.mk k, v) :: kvs, r5)
                     | none => none
                   else if c3 = '\x7d' then some ([(String.mk k, v)], r4)
                   else none
             else none)
        | none => none
      else none

end

/-- Models `json.loads`: parse one value, allowing surrounding whitespace,
requiring the whole input to be consumed. -/
def jsonLoads (s : String) : Option PyVal :=
  match parseVal (s.data.length + 1) s.data with
  | some (v, rest) => if skipWs rest = [] then some v else none
  | none => none

/-- Emotion with normalized intensity (schemas.EmotionIntensity). -/
structure EmotionIntensity where
  name : String
  intensity : ℚ
deriving DecidableEq, Repr

/-- Pydantic construction of an `EmotionIntensity`: the `Field(..., ge=0.0,
le=1.0)` bound check on `intensity`. -/
def mkEmotionIntensity (name : String) (intensity : ℚ) : Except PyErr EmotionIntensity :=
  if 0 ≤ intensity ∧ intensity ≤ 1 then .ok ⟨name, intensity⟩
  else .error .validation

/-- A validated familiar-interaction record (schemas.FamiliarInteraction). -/
structure FamiliarInteraction where
  timestamp : DateTime
  familiar_id : String
  interaction_type : String
  emotions : List EmotionIntensity
  notes : Option String
  model_id : Option String
deriving DecidableEq, Repr

/-- A validated ritual-outcome record (schemas.RitualOutcome). -/
structure RitualOutcome where
  timestamp : DateTime
  ritual_name : String
  success : Bool
  outcome_description : Option String
  emotions : List EmotionIntensity
  notes : Option String
  model_id : Option String
deriving DecidableEq, Repr

/-- Boolean success test for `Except`. -/
def exceptOk : Except PyErr α → Bool
  | .ok _ => true
  | .error _ => false

/-- The JSON value `e.dict()` produces for one emotion (field order is the
declaration order: `name` then `intensity`). -/
def emotionVal (e : EmotionIntensity) : PyVal :=
  .vdict [("name", .vstr e.name), ("intensity", .vnum e.intensity)]

/-- Models `_serialize_emotions`: `json.dumps([e.dict() for e in emotions],
ensure_ascii=False)`. -/
def serialize_emotions (es : List EmotionIntensity) : String :=
  String.mk (dumpVal (.vlist (es.map emotionVal)))

/-- Models `EmotionIntensity(**item)` on a parsed JSON value: a `TypeError`
if the item is not a dict, and pydantic validation of the `name` and
`intensity` fields otherwise (duplicate JSON keys resolve to the last
occurrence, as in a Python dict literal). -/
def emotionOfItem : PyVal → Except PyErr EmotionIntensity
  | .vdict kvs =>
    (match kvs.reverse.lookup "name", kvs.reverse.lookup "intensity" with
     | some (.vstr n), some (.vnum q) => mkEmotionIntensity n q
     | _, _ => .error .validation)
  | _ => .error .typeErr

/-- Models `[EmotionIntensity(**item) for item in raw]`: iterating a
non-iterable JSON value (a number, a boolean, null) raises a `TypeError`;
iterating a dict yields its keys and iterating a string its characters, so
the empty dict and the empty string iterate nothing and produce `[]` without
raising, while every yielded key or character is a string handed to
`EmotionIntensity(**item)`, which raises a `TypeError`; list elements go to
the constructor one by one.  The model folds every `TypeError` path into
`typeErr`. -/
def emotionsOfVal : PyVal → Except PyErr (List EmotionIntensity)
  | .vlist xs => xs.mapM emotionOfItem
  | .vdict kvs => if kvs.isEmpty then .ok [] else .error .typeErr
  | .vstr s => if s = "" then .ok [] else .error .typeErr
  | _ => .error .typeErr

/-- Models `_deserialize_emotions`: the empty string short-circuits to `[]`,
a `json.loads` failure is swallowed to `[]`, and the list comprehension runs
outside the `try`, so its exceptions propagate. -/
def deserialize_emotions (data : String) : Except PyErr (List EmotionIntensity) :=
  if data = "" then .ok []
  else
    match jsonLoads data with
    | none => .ok []
    | some v => emotionsOfVal v

/-- One stored row of the `interactions` table (the auto-assigned integer
primary key is the row's position and is not materialised). -/
structure InteractionRow where
  timestamp : String
  familiar_id : String
  interaction_type : String
  emotions : String
  notes : Option String
  model_id : Option String
deriving DecidableEq, Repr

/-- The row `add_interaction` inserts for a record. -/
def interactionToRow (rec : FamiliarInteraction) : InteractionRow :=
  ⟨isoformat rec.timestamp, rec.familiar_id, rec.interaction_type,
   serialize_emotions rec.emotions, rec.notes, rec.model_id⟩

/-- Models `add_interaction`: appends one row and returns the new state with
the auto-assigned id (`lastrowid`). -/
def add_interaction (rec : FamiliarInteraction) (db : List InteractionRow) :
    List InteractionRow × Nat :=
  (db ++ [interactionToRow rec], db.length + 1)

/-- The WHERE clause of `get_interactions`: conjunctive optional filters,
with `model_id = ?` an exact SQL equality (never matched by NULL) and the
time bounds compared on the stored ISO text under BINARY collation. -/
def rowMatches (mid : Option String) (start stop : Option DateTime)
    (row : InteractionRow) : Bool :=
  (match mid with
   | none => true
   | some m => row.model_id == some m) &&
  (match start with
   | none => true
   | some s => strGe row.timestamp (isoformat s)) &&
  (match stop with
   | none => true
   | some e => strGe (isoformat e) row.timestamp)

/-- Reconstruction of one fetched row into a `FamiliarInteraction`:
`_deserialize_emotions` runs first, then `datetime.fromisoformat` on the
timestamp text (raising `ValueError` on malformed text), then pydantic
construction from already-typed fields. -/
def rowToInteraction (row : InteractionRow) : Except PyErr FamiliarInteraction := do
  let es ← deserialize_emotions row.emotions
  match fromIso? row.timestamp with
  | some ts => .ok ⟨ts, row.familiar_id, row.interaction_type, es, row.notes, row.model_id⟩
  | none => .error .valueErr

/-- Models `get_interactions`: rows in storage (insertion) order, filtered by
the WHERE clause, each deserialized; an exception on any row aborts the
whole call. -/
def get_interactions (mid : Option String) (start stop : Option DateTime)
    (db : List InteractionRow) : Except PyErr (List FamiliarInteraction) :=
  (db.filter (rowMatches mid start stop)).mapM rowToInteraction

/-- Insertion-ordered counter increment (Python `Counter`/`dict` semantics:
a new key is appended, an existing key keeps its position). -/
def bumpCount (k : String) : List (String × Nat) → List (String × Nat)
  | [] => [(k, 1)]
  | (k2, c) :: t => if k2 = k then (k2, c + 1) :: t else (k2, c) :: bumpCount k t

/-- Models `aggregate_emotion_counts`: every emotion-name occurrence across
both collections, in an insertion-ordered counter. -/
def aggregate_emotion_counts (ints : List FamiliarInteraction)
    (rits : List RitualOutcome) : List (String × Nat) :=
  let c1 := ints.foldl (fun acc i => i.emotions.foldl (fun a e => bumpCount e.name a) acc) []
  rits.foldl (fun acc r => r.emotions.foldl (fun a e => bumpCount e.name a) acc) c1

/-- Models `compute_success_rate`: one pass counting total and successes,
with the explicit guard returning 0.0 for an empty collection. -/
def compute_success_rate (rits : List RitualOutcome) : ℚ :=
  let p := rits.foldl (fun (p : Nat × Nat) r => (p.1 + 1, if r.success then p.2 + 1 else p.2)) (0, 0)
  if 0 < p.1 then (p.2 : ℚ) / (p.1 : ℚ) else 0

/-- The grouping key `record.model_id or "unknown"`: Python `or` takes the
right operand on any falsy left operand, so both `None` and the empty string
map to `"unknown"`. -/
def pyKey : Option String → String
  | none => "unknown"
  | some s => if s = "" then "unknown" else s

/-- Two-level insertion-ordered counter increment (nested `defaultdict`). -/
def bumpModel (model emotion : String) :
    List (String × List (String × Nat)) → List (String × List (String × Nat))
  | [] => [(model, [(emotion, 1)])]
  | (m, cs) :: t =>
    if m = model then (m, bumpCount emotion cs) :: t
    else (m, cs) :: bumpModel model emotion t

/-- Models `emotion_counts_by_model`: per-occurrence counts grouped by the
`pyKey` of each record; a record with no emotions never touches the outer
mapping. -/
def emotion_counts_by_model (ints : List FamiliarInteraction)
    (rits : List RitualOutcome) : List (String × List (String × Nat)) :=
  let acc := ints.foldl
    (fun acc i => i.emotions.foldl (fun a e => bumpModel (pyKey i.model_id) e.name a) acc) []
  rits.foldl
    (fun acc r => r.emotions.foldl (fun a e => bumpModel (pyKey r.model_id) e.name a) acc) acc

/-- Insertion-ordered success/failure tally increment. -/
def bumpSF (k : String) (succ : Bool) :
    List (String × (Nat × Nat)) → List (String × (Nat × Nat))
  | [] => [(k, if succ then (1, 0) else (0, 1))]
  | (k2, sf) :: t =>
    if k2 = k then (k2, if succ then (sf.1 + 1, sf.2) else (sf.1, sf.2 + 1)) :: t
    else (k2, sf) :: bumpSF k succ t

/-- Models `ritual_success_by_emotion`: one increment per emotion occurrence
into the success or failure slot of that emotion's bucket. -/
def ritual_success_by_emotion (rits : List RitualOutcome) :
    List (String × (Nat × Nat)) :=
  rits.foldl (fun acc r => r.emotions.foldl (fun a e => bumpSF e.name r.success a) acc) []

/-- Insertion into a descending-sorted list, after all entries with an equal
or larger key (the placement a stable descending sort gives). -/
def insertDescBy {α : Type} (f : α → ℚ) (x : α) : List α → List α
  | [] => [x]
  | y :: ys => if f y < f x then x :: y :: ys else y :: insertDescBy f x ys

/-- Stable descending sort by a rational key; extensionally equal to Python's
`sorted(..., reverse=True)`, whose output the stability contract determines
uniquely. -/
def sortDescBy {α : Type} (f : α → ℚ) (l : List α) : List α :=
  l.foldl (fun acc x => insertDescBy f x acc) []

/-- First maximal element by second component (Python `max(..., key=...)`
keeps the first maximum in iteration order). -/
def maxBySnd : List (String × Nat) → Option (String × Nat)
  | [] => none
  | x :: t => some (t.foldl (fun best y => if best.2 < y.2 then y else best) x)

/-- Models the Python format specifier `.{prec}f` on an exact value: scale,
round half to even, and print with `prec` fractional digits. -/
def fmtFixed (prec : Nat) (q : ℚ) : String :=
  let m := roundHalfEvenQ (q * (10 : ℚ) ^ prec)
  let a := m.natAbs
  let sign := if m < 0 then "-" else ""
  if prec = 0 then sign ++ String.mk (natRepr a)
  else sign ++ String.mk (natRepr (a / 10 ^ prec)) ++ "." ++ String.mk (pad prec (a % 10 ^ prec))

/-- A derived insight (schemas.PatternInsight); `metrics` and
`related_entities` keep Python's dict iteration (insertion) order. -/
structure PatternInsight where
  description : String
  metrics : List (String × ℚ)
  related_entities : Option (List (String × List String))
deriving DecidableEq, Repr

/-- Models `generate_insights`: the fixed four-stage pipeline of patterns.py,
in order — emotion frequency (if any emotions), ritual success rate
(always), broadest-palette model (if more than one model key), and
success-by-emotion ratios (if any tally exists). -/
def generate_insights (ints : List FamiliarInteraction)
    (rits : List RitualOutcome) : List PatternInsight :=
  let emotion_counts := aggregate_emotion_counts ints rits
  let freqInsights : List PatternInsight :=
    if emotion_counts.isEmpty then []
    else
      let top_emotions := (sortDescBy (fun p => (p.2 : ℚ)) emotion_counts).take 3
      let description :=
        "The most frequently experienced emotions across all interactions and rituals are: " ++
        String.intercalate ", "
          (top_emotions.map fun p => p.1 ++ " (" ++ String.mk (natRepr p.2) ++ ")") ++ "."
      [⟨description, emotion_counts.map (fun p => (p.1, (p.2 : ℚ))),
        some [("emotions", top_emotions.map (·.1))]⟩]
  let success_rate := compute_success_rate rits
  let rateInsight : PatternInsight :=
    ⟨"Overall ritual success rate is " ++ fmtFixed 1 (success_rate * 100) ++
       "% across " ++ String.mk (natRepr rits.length) ++ " rituals.",
     [("success_rate", success_rate), ("ritual_count", (rits.length : ℚ))],
     some [("rituals", rits.map (·.ritual_name))]⟩
  let by_model := emotion_counts_by_model ints rits
  let modelInsights : List PatternInsight :=
    if 1 < by_model.length then
      match maxBySnd (by_model.map fun p => (p.1, p.2.length)) with
      | some best =>
        [⟨"Model '" ++ best.1 ++ "' exhibited the broadest range of emotions (" ++
            String.mk (natRepr best.2) ++ " unique emotions).",
          by_model.map fun p => (p.1, (p.2.length : ℚ)),
          some [("models", by_model.map (·.1))]⟩]
      | none => []
    else []
  let success_by_emotion := ritual_success_by_emotion rits
  let corrInsights : List PatternInsight :=
    if success_by_emotion.isEmpty then []
    else
      let ratios := success_by_emotion.map fun p =>
        (p.1, if 0 < p.2.1 + p.2.2 then (p.2.1 : ℚ) / ((p.2.1 : ℚ) + (p.2.2 : ℚ)) else 0)
      let top_positive := (sortDescBy (fun p => p.2) ratios).take 3
      [⟨"Emotions most correlated with successful rituals: " ++
          String.intercalate ", "
            (top_positive.map fun p => p.1 ++ " (" ++ fmtFixed 0 (p.2 * 100) ++ "%)") ++ ".",
        ratios, some [("emotions", top_positive.map (·.1))]⟩]
  freqInsights ++ (rateInsight :: (modelInsights ++ corrInsights))

/-- Per-occurrence count of an emotion name in an emotion list. -/
def countEm (n : String) (es : List EmotionIntensity) : Nat :=
  es.countP fun e => e.name == n

/-- Count lookup in the nested per-model counter (0 for absent keys). -/
def lookupModelCount (m : List (String × List (String × Nat))) (k n : String) : Nat :=
  match m.lookup k with
  | some cs => ((cs.lookup n).getD 0)
  | none => 0

/-- Both intensity requirements a stored emotion satisfies in the model: it
came from a float (terminating decimal) and passed the pydantic bound
check. -/
def ValidEmotion (e : EmotionIntensity) : Prop :=
  IsDecimal e.intensity ∧ 0 ≤ e.intensity ∧ e.intensity ≤ 1

instance (e : EmotionIntensity) : Decidable (ValidEmotion e) := by
  unfold ValidEmotion; infer_instance

/-- Modelled from the spec sentence of C9: the per-ritual reading of the
success/failure tally, counting the rituals carrying an emotion rather than
the emotion's occurrences.  Used only to contrast with the source's
`ritual_success_by_emotion`. -/
def ritualsCarryingTally (rits : List RitualOutcome) (n : String) : Nat × Nat :=
  (rits.countP (fun r => r.success && r.emotions.any fun e => e.name == n),
   rits.countP (fun r => !r.success && r.emotions.any fun e => e.name == n))

/-- The single ritual of the spec's `generate_insights` example: "Moon Rite",
successful, with one emotion joy at 0.8. -/
def moonRite : RitualOutcome :=
  ⟨⟨2025, 1, 1, 0, 0, 0, 0⟩, "Moon Rite", true, none, [⟨"joy", 4/5⟩], none, none⟩

/-- A concrete valid interaction record used to instantiate general results. -/
def demoInteraction : FamiliarInteraction :=
  ⟨⟨2024, 1, 2, 3, 4, 5, 0⟩, "owl", "vision", [⟨"joy", 4/5⟩], none, some "claude"⟩

/-- A successful ritual that carries the same emotion name twice. -/
def dupEmotionRite : RitualOutcome :=
  ⟨⟨2025, 1, 1, 0, 0, 0, 0⟩, "Echo Rite", true, none,
   [⟨"joy", 1/2⟩, ⟨"joy", 1/2⟩], none, none⟩

/-- A ritual with the given success flag and no emotions. -/
def plainRitual (succ : Bool) : RitualOutcome :=
  ⟨⟨2025, 1, 1, 0, 0, 0, 0⟩, "plain", succ, none, [], none, none⟩

/-! Digit and fixed-width numeral lemmas. -/

theorem digitChar_toNat (d : Nat) (hd : d < 10) : (digitChar d).toNat = 48 + d := by
  interval_cases d <;> rfl

theorem isDigitChar_digitChar (d : Nat) : isDigitChar (digitChar d) = true := by
  match d with
  | 0 | 1 | 2 | 3 | 4 | 5 | 6 | 7 | 8 => rfl
  | n + 9 => rfl

theorem readDigit_digitChar (d : Nat) (hd : d < 10) : readDigit (digitChar d) = some d := by
  unfold readDigit
  rw [isDigitChar_digitChar, if_pos rfl]
  rw [digitChar_toNat d hd]
  simp

theorem pad_length (k n : Nat) : (pad k n).length = k := by
  induction k generalizing n with
  | zero => rfl
  | succ k ih => simp [pad, ih]

theorem pad_isDigit (k n : Nat) : ∀ c ∈ pad k n, isDigitChar c = true := by
  induction k generalizing n with
  | zero => intro c hc; cases hc
  | succ k ih =>
    intro c hc
    rcases List.mem_cons.mp hc with h | h
    · subst h; exact isDigitChar_digitChar _
    · exact ih _ c h

theorem readFixed_pad (k n : Nat) (rest : List Char) (h : n < 10 ^ k) :
    readFixed k (pad k n ++ rest) = some (n, rest) := by
  induction k generalizing n rest with
  | zero =>
    simp only [pad, List.nil_append, readFixed]
    have : n = 0 := by simpa using h
    simp [this]
  | succ k ih =>
    have hdiv : n / 10 ^ k < 10 := by
      apply Nat.div_lt_of_lt_mul
      calc n < 10 ^ (k + 1) := h
        _ = 10 ^ k * 10 := by ring
    have hmod : n % 10 ^ k < 10 ^ k := Nat.mod_lt _ (by positivity)
    simp only [pad, List.cons_append]
    rw [readFixed, readDigit_digitChar _ hdiv, ih _ rest hmod]
    have h2 : n / 10 ^ k * 10 ^ k + n % 10 ^ k = n := by
      rw [Nat.mul_comm]; exact Nat.div_add_mod n (10 ^ k)
    show some (n / 10 ^ k * 10 ^ k + n % 10 ^ k, rest) = some (n, rest)
    rw [h2]

theorem foldl_decode_pad (k n a : Nat) (h : n < 10 ^ k) :
    (pad k n).foldl (fun a c => 10 * a + (c.toNat - 48)) a = a * 10 ^ k + n := by
  induction k generalizing n a with
  | zero =>
    have : n = 0 := by simpa using h
    simp [pad, this]
  | succ k ih =>
    have hdiv : n / 10 ^ k < 10 := by
      apply Nat.div_lt_of_lt_mul
      calc n < 10 ^ (k + 1) := h
        _ = 10 ^ k * 10 := by ring
    have hmod : n % 10 ^ k < 10 ^ k := Nat.mod_lt _ (by positivity)
    simp only [pad, List.foldl_cons]
    rw [digitChar_toNat _ hdiv, ih _ _ hmod]
    have h2 : 10 ^ k * (n / 10 ^ k) + n % 10 ^ k = n := Nat.div_add_mod n (10 ^ k)
    have h3 : (10 * a + (48 + n / 10 ^ k - 48)) * 10 ^ k + n % 10 ^ k
        = a * 10 ^ (k + 1) + (10 ^ k * (n / 10 ^ k) + n % 10 ^ k) := by
      have : 48 + n / 10 ^ k - 48 = n / 10 ^ k := Nat.add_sub_cancel_left _ _
      rw [this]; ring
    rw [h3, h2]

theorem decodeDigits_pad (k n : Nat) (h : n < 10 ^ k) : decodeDigits (pad k n) = n := by
  unfold decodeDigits
  rw [foldl_decode_pad k n 0 h]
  simp

theorem nat_lt_pow_digitLen (n : Nat) : n < 10 ^ digitLen n := by
  unfold digitLen
  exact Nat.lt_pow_succ_log_self (by norm_num) n

theorem takeDigits_append (ds rest : List Char) (hds : ∀ c ∈ ds, isDigitChar c = true)
    (hrest : headNotDigit rest = true) : takeDigits (ds ++ rest) = (ds, rest) := by
  induction ds with
  | nil =>
    cases rest with
    | nil => rfl
    | cons c t =>
      have : isDigitChar c = false := by
        simpa [headNotDigit] using hrest
      simp [takeDigits, this]
  | cons c t ih =>
    have hc := hds c (by simp)
    simp [takeDigits, hc, ih (fun x hx => hds x (by simp [hx]))]

/-! Byte-wise comparison lemmas. -/

theorem char_toNat_inj {a b : Char} (h : a.toNat = b.toNat) : a = b := by
  have ha := Char.ofNat_toNat a
  rw [h, Char.ofNat_toNat] at ha
  exact ha.symm

theorem memLt_cons_same (c : Char) (cs ds : List Char) :
    memLt (c :: cs) (c :: ds) = memLt cs ds := by
  simp [memLt]

theorem memLt_append (as : List Char) (bs cs ds : List Char) (h : as.length = bs.length) :
    memLt (as ++ cs) (bs ++ ds) = if as = bs then memLt cs ds else memLt as bs := by
  induction as generalizing bs with
  | nil =>
    cases bs with
    | nil => simp
    | cons b u => simp at h
  | cons a t ih =>
    cases bs with
    | nil => simp at h
    | cons b u =>
      have h' : t.length = u.length := by simpa using h
      simp only [List.cons_append]
      by_cases h1 : a.toNat < b.toNat
      · have hne : (a :: t) ≠ (b :: u) := by
          intro he
          have : a = b := by injection he
          subst this; omega
        rw [if_neg hne]
        simp [memLt, h1]
      · by_cases h2 : b.toNat < a.toNat
        · have hne : (a :: t) ≠ (b :: u) := by
            intro he
            have : a = b := by injection he
            subst this; omega
          rw [if_neg hne]
          simp [memLt, h1, h2]
        · have hab : a = b := char_toNat_inj (by omega)
          subst hab
          rw [memLt_cons_same, memLt_cons_same, ih u h']
          by_cases htu : t = u
          · subst htu; simp
          · rw [if_neg htu, if_neg (by simp [htu])]

theorem memLt_eq_of_both_false (as : List Char) (bs : List Char) (h : as.length = bs.length)
    (h1 : memLt as bs = false) (h2 : memLt bs as = false) : as = bs := by
  induction as generalizing bs with
  | nil =>
    cases bs with
    | nil => rfl
    | cons b u => simp [memLt] at h1
  | cons a t ih =>
    cases bs with
    | nil => simp [memLt] at h2
    | cons b u =>
      have h' : t.length = u.length := by simpa using h
      by_cases hab : a.toNat < b.toNat
      · simp [memLt, hab] at h1
      · by_cases hba : b.toNat < a.toNat
        · simp [memLt, hba] at h2
        · have he : a = b := char_toNat_inj (by omega)
          subst he
          rw [memLt_cons_same] at h1 h2
          rw [ih u h' h1 h2]

/-! Datetime ordering lemmas. -/

theorem dt_trichotomy (d e : DateTime) : DateTime.lt d e ∨ d = e ∨ DateTime.lt e d := by
  obtain ⟨y1, mo1, d1, h1, mi1, s1, u1⟩ := d
  obtain ⟨y2, mo2, d2, h2, mi2, s2, u2⟩ := e
  simp only [DateTime.lt, DateTime.mk.injEq]
  omega

theorem dt_not_lt (d e : DateTime) : (¬ DateTime.lt d e) ↔ DateTime.le e d := by
  obtain ⟨y1, mo1, d1, h1, mi1, s1, u1⟩ := d
  obtain ⟨y2, mo2, d2, h2, mi2, s2, u2⟩ := e
  simp only [DateTime.lt, DateTime.le, DateTime.mk.injEq]
  omega

theorem daysInMonth_le (y m : Nat) : daysInMonth y m ≤ 31 := by
  unfold daysInMonth
  split_ifs <;> omega

theorem memLt_pad (k n1 n2 : Nat) (h1 : n1 < 10 ^ k) (h2 : n2 < 10 ^ k) :
    memLt (pad k n1) (pad k n2) = decide (n1 < n2) := by
  induction k generalizing n1 n2 with
  | zero =>
    have e1 : n1 = 0 := by simpa using h1
    have e2 : n2 = 0 := by simpa using h2
    subst e1; subst e2
    rfl
  | succ k ih =>
    have hp : 0 < 10 ^ k := by positivity
    have e1 := Nat.div_add_mod n1 (10 ^ k)
    have e2 := Nat.div_add_mod n2 (10 ^ k)
    have hq1 : n1 / 10 ^ k < 10 := by
      apply Nat.div_lt_of_lt_mul
      calc n1 < 10 ^ (k + 1) := h1
        _ = 10 ^ k * 10 := by ring
    have hq2 : n2 / 10 ^ k < 10 := by
      apply Nat.div_lt_of_lt_mul
      calc n2 < 10 ^ (k + 1) := h2
        _ = 10 ^ k * 10 := by ring
    have hr1 : n1 % 10 ^ k < 10 ^ k := Nat.mod_lt _ hp
    have hr2 : n2 % 10 ^ k < 10 ^ k := Nat.mod_lt _ hp
    simp only [pad, memLt]
    rw [digitChar_toNat _ hq1, digitChar_toNat _ hq2]
    by_cases hlt : n1 / 10 ^ k < n2 / 10 ^ k
    · rw [if_pos (by omega)]
      have hn : n1 < n2 := by
        calc n1 = 10 ^ k * (n1 / 10 ^ k) + n1 % 10 ^ k := e1.symm
          _ < 10 ^ k * (n1 / 10 ^ k) + 10 ^ k := Nat.add_lt_add_left hr1 _
          _ = 10 ^ k * (n1 / 10 ^ k + 1) := by ring
          _ ≤ 10 ^ k * (n2 / 10 ^ k) := Nat.mul_le_mul_left _ (by omega)
          _ ≤ 10 ^ k * (n2 / 10 ^ k) + n2 % 10 ^ k := Nat.le_add_right _ _
          _ = n2 := e2
      simp [hn]
    · by_cases hgt : n2 / 10 ^ k < n1 / 10 ^ k
      · rw [if_neg (by omega), if_pos (by omega)]
        have hn : n2 < n1 := by
          calc n2 = 10 ^ k * (n2 / 10 ^ k) + n2 % 10 ^ k := e2.symm
            _ < 10 ^ k * (n2 / 10 ^ k) + 10 ^ k := Nat.add_lt_add_left hr2 _
            _ = 10 ^ k * (n2 / 10 ^ k + 1) := by ring
            _ ≤ 10 ^ k * (n1 / 10 ^ k) := Nat.mul_le_mul_left _ (by omega)
            _ ≤ 10 ^ k * (n1 / 10 ^ k) + n1 % 10 ^ k := Nat.le_add_right _ _
            _ = n1 := e1
        have : ¬ n1 < n2 := by omega
        simp [this]
      · have hq : n1 / 10 ^ k = n2 / 10 ^ k := by omega
        rw [if_neg (by omega), if_neg (by omega), ih _ _ hr1 hr2]
        rw [decide_eq_decide]
        set q1 := n1 / 10 ^ k
        set r1 := n1 % 10 ^ k
        set q2 := n2 / 10 ^ k
        set r2 := n2 % 10 ^ k
        rw [← e1, ← e2, hq]
        exact Nat.add_lt_add_iff_left.symm

theorem pad_inj (k n1 n2 : Nat) (h1 : n1 < 10 ^ k) (h2 : n2 < 10 ^ k)
    (h : pad k n1 = pad k n2) : n1 = n2 := by
  have r1 := readFixed_pad k n1 [] h1
  have r2 := readFixed_pad k n2 [] h2
  rw [h, r2] at r1
  simp at r1
  exact r1.symm

theorem memLt_pad_block (k n1 n2 : Nat) (t1 t2 : List Char)
    (h1 : n1 < 10 ^ k) (h2 : n2 < 10 ^ k) :
    memLt (pad k n1 ++ t1) (pad k n2 ++ t2) =
      if n1 = n2 then memLt t1 t2 else decide (n1 < n2) := by
  rw [memLt_append _ _ _ _ (by rw [pad_length, pad_length])]
  by_cases he : n1 = n2
  · subst he; simp
  · rw [if_neg (fun hp => he (pad_inj _ _ _ h1 h2 hp)), if_neg he, memLt_pad _ _ _ h1 h2]

theorem memLt_iso (d e : DateTime) (hd : d.Valid) (he : e.Valid) :
    memLt (isoChars d) (isoChars e) = true ↔ DateTime.lt d e := by
  obtain ⟨y1, mo1, d1, h1, mi1, s1, u1⟩ := d
  obtain ⟨y2, mo2, d2, h2, mi2, s2, u2⟩ := e
  have hdm1 := daysInMonth_le y1 mo1
  have hdm2 := daysInMonth_le y2 mo2
  obtain ⟨a1, a2, a3, a4, a5, a6, a7, a8, a9, a10⟩ := hd
  obtain ⟨b1, b2, b3, b4, b5, b6, b7, b8, b9, b10⟩ := he
  simp only at a1 a2 a3 a4 a5 a6 a7 a8 a9 a10 b1 b2 b3 b4 b5 b6 b7 b8 b9 b10 hdm1 hdm2
  unfold isoChars
  simp only
  rw [memLt_pad_block 4 y1 y2 _ _ (by omega) (by omega)]
  by_cases hy : y1 = y2
  case neg =>
    rw [if_neg hy, decide_eq_true_iff]
    simp only [DateTime.lt, true_and]
    omega
  subst hy
  rw [if_pos rfl, memLt_cons_same]
  rw [memLt_pad_block 2 mo1 mo2 _ _ (by omega) (by omega)]
  by_cases hmo : mo1 = mo2
  case neg =>
    rw [if_neg hmo, decide_eq_true_iff]
    simp only [DateTime.lt, true_and]
    omega
  subst hmo
  rw [if_pos rfl, memLt_cons_same]
  rw [memLt_pad_block 2 d1 d2 _ _ (by omega) (by omega)]
  by_cases hd' : d1 = d2
  case neg =>
    rw [if_neg hd', decide_eq_true_iff]
    simp only [DateTime.lt, true_and]
    omega
  subst hd'
  rw [if_pos rfl, memLt_cons_same]
  rw [memLt_pad_block 2 h1 h2 _ _ (by omega) (by omega)]
  by_cases hh : h1 = h2
  case neg =>
    rw [if_neg hh, decide_eq_true_iff]
    simp only [DateTime.lt, true_and]
    omega
  subst hh
  rw [if_pos rfl, memLt_cons_same]
  rw [memLt_pad_block 2 mi1 mi2 _ _ (by omega) (by omega)]
  by_cases hmi : mi1 = mi2
  case neg =>
    rw [if_neg hmi, decide_eq_true_iff]
    simp only [DateTime.lt, true_and]
    omega
  subst hmi
  rw [if_pos rfl, memLt_cons_same]
  rw [memLt_pad_block 2 s1 s2 _ _ (by omega) (by omega)]
  by_cases hs : s1 = s2
  case neg =>
    rw [if_neg hs, decide_eq_true_iff]
    simp only [DateTime.lt, true_and]
    omega
  subst hs
  rw [if_pos rfl]
  by_cases hu1 : u1 = 0
  · by_cases hu2 : u2 = 0
    · subst hu1; subst hu2
      simp only [if_pos rfl]
      simp only [memLt, DateTime.lt, true_and]
      simp
    · subst hu1
      simp only [if_pos rfl, if_neg hu2]
      simp only [memLt, DateTime.lt, true_and]
      simp
      omega
  · by_cases hu2 : u2 = 0
    · subst hu2
      simp only [if_neg hu1, if_pos rfl]
      simp only [memLt, DateTime.lt, true_and]
      simp
    · rw [if_neg hu1, if_neg hu2, memLt_cons_same]
      rw [memLt_pad 6 u1 u2 (by omega) (by omega), decide_eq_true_iff]
      simp only [DateTime.lt, true_and]
      omega

theorem strGe_iso (d e : DateTime) (hd : d.Valid) (he : e.Valid) :
    strGe (isoformat d) (isoformat e) = decide (DateTime.le e d) := by
  have hmain : memLt (isoChars d) (isoChars e) = decide (DateTime.lt d e) := by
    by_cases h : DateTime.lt d e
    · rw [(memLt_iso d e hd he).mpr h]
      simp [h]
    · cases hmm : memLt (isoChars d) (isoChars e) with
      | false => simp [h]
      | true => exact absurd ((memLt_iso d e hd he).mp hmm) h
  unfold strGe isoformat
  rw [show (String.mk (isoChars d)).data = isoChars d from rfl,
      show (String.mk (isoChars e)).data = isoChars e from rfl, hmain]
  by_cases h : DateTime.lt d e
  · have h2 : ¬ DateTime.le e d := fun hle => ((dt_not_lt d e).mpr hle) h
    simp [h, h2]
  · have h2 : DateTime.le e d := (dt_not_lt d e).mp h
    simp [h, h2]

theorem fromIso_isoformat (d : DateTime) (hd : d.Valid) : fromIso? (isoformat d) = some d := by
  obtain ⟨y, mo, dd, h, mi, s, u⟩ := d
  have hdm := daysInMonth_le y mo
  have hv := hd
  obtain ⟨a1, a2, a3, a4, a5, a6, a7, a8, a9, a10⟩ := hd
  simp only at a1 a2 a3 a4 a5 a6 a7 a8 a9 a10 hdm
  show fromIsoChars (isoChars ⟨y, mo, dd, h, mi, s, u⟩) = some ⟨y, mo, dd, h, mi, s, u⟩
  unfold isoChars fromIsoChars
  simp only
  rw [readFixed_pad 4 y _ (by omega)]
  simp only [Option.bind_eq_bind, Option.some_bind, expectChar, reduceIte, eq_self_iff_true, true_or, if_true]
  rw [readFixed_pad 2 mo _ (by omega)]
  simp only [Option.some_bind, expectChar, reduceIte, eq_self_iff_true, true_or, if_true]
  rw [readFixed_pad 2 dd _ (by omega)]
  simp only [Option.some_bind, expectChar, reduceIte, eq_self_iff_true, true_or, if_true]
  rw [readFixed_pad 2 h _ (by omega)]
  simp only [Option.some_bind, expectChar, reduceIte, eq_self_iff_true, true_or, if_true]
  rw [readFixed_pad 2 mi _ (by omega)]
  simp only [Option.some_bind, expectChar, reduceIte, eq_self_iff_true, true_or, if_true]
  rw [readFixed_pad 2 s _ (by omega)]
  simp only [Option.some_bind, expectChar, reduceIte, eq_self_iff_true, true_or, if_true]
  by_cases hu : u = 0
  · subst hu
    rw [if_pos rfl]
    unfold finishIso
    simp only
    rw [if_pos hv]
  · rw [if_neg hu]
    unfold finishIso
    simp only
    rw [show pad 6 u = pad 6 u ++ [] from (List.append_nil _).symm]
    rw [takeDigits_append (pad 6 u) [] (pad_isDigit 6 u) rfl]
    simp only [pad_length]
    rw [if_pos (by norm_num)]
    rw [decodeDigits_pad 6 u (by omega)]
    simp only [Nat.sub_self, pow_zero, Nat.mul_one]
    rw [if_pos hv]

/-! Epoch conversion lemmas. -/

theorem utc_int_ok (n : Int) (h1 : MINEPOCH ≤ n) (h2 : n ≤ MAXEPOCH) :
    exceptOk (utcfromtimestampInt n) = true := by
  simp only [MINEPOCH, MAXEPOCH] at h1 h2
  unfold utcfromtimestampInt dtFromEpochUsec
  have hsec : Int.ediv (n * 1000000) 1000000 = n := Int.mul_ediv_cancel n (by norm_num)
  simp only [hsec, MINEPOCH, MAXEPOCH]
  rw [if_neg (by omega)]
  rfl

theorem roundHalfEvenQ_bounds (q : ℚ) : ⌊q⌋ ≤ roundHalfEvenQ q ∧ roundHalfEvenQ q ≤ ⌊q⌋ + 1 := by
  simp only [roundHalfEvenQ]
  split_ifs <;> omega

theorem utc_float_ok (q : ℚ) (h1 : 0 ≤ q) (h2 : q ≤ 253402300798) :
    exceptOk (utcfromtimestampFloat q) = true := by
  unfold utcfromtimestampFloat dtFromEpochUsec
  obtain ⟨hb1, hb2⟩ := roundHalfEvenQ_bounds (q * 1000000)
  have hf1 : (0 : Int) ≤ ⌊q * 1000000⌋ := by
    apply Int.le_floor.mpr
    push_cast
    positivity
  have hf2 : ⌊q * 1000000⌋ ≤ 253402300798 * 1000000 := by
    have hle : (q * 1000000 : ℚ) ≤ ((253402300798 * 1000000 : Int) : ℚ) := by
      push_cast
      nlinarith
    calc ⌊q * 1000000⌋ ≤ ⌊((253402300798 * 1000000 : Int) : ℚ)⌋ := Int.floor_mono hle
      _ = 253402300798 * 1000000 := Int.floor_intCast _
  have hsec1 : 0 ≤ Int.ediv (roundHalfEvenQ (q * 1000000)) 1000000 :=
    Int.ediv_nonneg (by omega) (by norm_num)
  have hsec2 : Int.ediv (roundHalfEvenQ (q * 1000000)) 1000000 ≤ 253402300799 := by
    calc Int.ediv (roundHalfEvenQ (q * 1000000)) 1000000
        ≤ Int.ediv (253402300798 * 1000000 + 1) 1000000 :=
          Int.ediv_le_ediv (by norm_num) (by omega)
      _ = 253402300798 := by decide
      _ ≤ 253402300799 := by norm_num
  simp only [MINEPOCH, MAXEPOCH]
  rw [if_neg (by omega)]
  rfl

theorem hexVal_hexDigit (d : Nat) (hd : d < 16) : hexVal (hexDigit d) = some d := by
  interval_cases d <;> rfl

theorem parseStrAux_esc_step (e c2 : Char) (tail : List Char)
    (hu : e ≠ 'u') (he : escDecode e = some c2) :
    parseStrAux ('\\' :: e :: tail) =
      match parseStrAux tail with
      | some (s, r) => some (c2 :: s, r)
      | none => none := by
  conv_lhs => unfold parseStrAux
  rw [if_neg (by decide), if_pos rfl]
  simp only [hu, if_false]
  rw [he]

theorem parseStrAux_plain (c : Char) (tail : List Char)
    (h1 : c ≠ '"') (h2 : c ≠ '\\') (h3 : ¬ c.toNat < 32) :
    parseStrAux (c :: tail) =
      match parseStrAux tail with
      | some (s, r) => some (c :: s, r)
      | none => none := by
  conv_lhs => unfold parseStrAux
  rw [if_neg h1, if_neg h2, if_neg h3]

theorem parseStrAux_u_step (hi lo : Nat) (tail : List Char) (hhi : hi < 16) (hlo : lo < 16)
    (hns : ¬ (55296 ≤ ((0 * 16 + 0) * 16 + hi) * 16 + lo ∧ ((0 * 16 + 0) * 16 + hi) * 16 + lo ≤ 57343)) :
    parseStrAux ('\\' :: 'u' :: '0' :: '0' :: hexDigit hi :: hexDigit lo :: tail) =
      match parseStrAux tail with
      | some (s, r) => some (Char.ofNat (((0 * 16 + 0) * 16 + hi) * 16 + lo) :: s, r)
      | none => none := by
  conv_lhs => unfold parseStrAux
  simp only [reduceIte]
  rw [show hexVal '0' = some 0 from rfl]
  rw [hexVal_hexDigit _ hhi, hexVal_hexDigit _ hlo]
  simp only [if_neg hns]
  rw [if_neg (show ¬('\\' = '"') by decide)]

theorem parseStrAux_escape (cs : List Char) (rest : List Char) :
    parseStrAux (escapeStr cs ++ '"' :: rest) = some (cs, rest) := by
  induction cs with
  | nil =>
    simp only [escapeStr, List.nil_append]
    unfold parseStrAux
    rw [if_pos rfl]
  | cons c t ih =>
    show parseStrAux ((escapeChar c ++ escapeStr t) ++ '"' :: rest) = some (c :: t, rest)
    rw [List.append_assoc]
    unfold escapeChar
    by_cases h1 : c = '"'
    · subst h1
      rw [if_pos rfl]
      simp only [List.cons_append, List.nil_append]
      rw [parseStrAux_esc_step '"' '"' _ (by decide) rfl, ih]
    rw [if_neg h1]
    by_cases h2 : c = '\\'
    · subst h2
      rw [if_pos rfl]
      simp only [List.cons_append, List.nil_append]
      rw [parseStrAux_esc_step '\\' '\\' _ (by decide) rfl, ih]
    rw [if_neg h2]
    by_cases h3 : c.toNat = 8
    · rw [if_pos h3]
      have hc : Char.ofNat 8 = c := by rw [← h3, Char.ofNat_toNat]
      simp only [List.cons_append, List.nil_append]
      rw [parseStrAux_esc_step 'b' (Char.ofNat 8) _ (by decide) rfl, ih, hc]
    rw [if_neg h3]
    by_cases h4 : c.toNat = 9
    · rw [if_pos h4]
      have hc : Char.ofNat 9 = c := by rw [← h4, Char.ofNat_toNat]
      simp only [List.cons_append, List.nil_append]
      rw [parseStrAux_esc_step 't' (Char.ofNat 9) _ (by decide) rfl, ih, hc]
    rw [if_neg h4]
    by_cases h5 : c.toNat = 10
    · rw [if_pos h5]
      have hc : Char.ofNat 10 = c := by rw [← h5, Char.ofNat_toNat]
      simp only [List.cons_append, List.nil_append]
      rw [parseStrAux_esc_step 'n' (Char.ofNat 10) _ (by decide) rfl, ih, hc]
    rw [if_neg h5]
    by_cases h6 : c.toNat = 12
    · rw [if_pos h6]
      have hc : Char.ofNat 12 = c := by rw [← h6, Char.ofNat_toNat]
      simp only [List.cons_append, List.nil_append]
      rw [parseStrAux_esc_step 'f' (Char.ofNat 12) _ (by decide) rfl, ih, hc]
    rw [if_neg h6]
    by_cases h7 : c.toNat = 13
    · rw [if_pos h7]
      have hc : Char.ofNat 13 = c := by rw [← h7, Char.ofNat_toNat]
      simp only [List.cons_append, List.nil_append]
      rw [parseStrAux_esc_step 'r' (Char.ofNat 13) _ (by decide) rfl, ih, hc]
    rw [if_neg h7]
    by_cases h8 : c.toNat < 32
    · rw [if_pos h8]
      have hc : Char.ofNat (((0 * 16 + 0) * 16 + c.toNat / 16) * 16 + c.toNat % 16) = c := by
        have hn : ((0 * 16 + 0) * 16 + c.toNat / 16) * 16 + c.toNat % 16 = c.toNat := by omega
        rw [hn, Char.ofNat_toNat]
      simp only [List.cons_append, List.nil_append]
      rw [parseStrAux_u_step (c.toNat / 16) (c.toNat % 16) _ (by omega) (by omega) (by omega), ih, hc]
    · rw [if_neg h8]
      simp only [List.cons_append, List.nil_append]
      rw [parseStrAux_plain c _ h1 h2 h8, ih]

/-! Number formatting and parsing lemmas. -/

theorem headDelim_notDigit (rest : List Char) (h : headDelim rest = true) :
    headNotDigit rest = true := by
  cases rest with
  | nil => rfl
  | cons c t =>
    simp only [headDelim, Bool.not_eq_true', Bool.or_eq_false_iff] at h
    simp [headNotDigit, h.1.1.1]

theorem parseFrac_delim (rest : List Char) (h : headDelim rest = true) :
    parseFrac rest = some (0, rest) := by
  cases rest with
  | nil => rfl
  | cons c t =>
    simp only [headDelim, Bool.not_eq_true', Bool.or_eq_false_iff] at h
    have : ¬ c = '.' := by
      intro he
      rw [he] at h
      simp at h
    simp [parseFrac, this]

theorem parseExp_delim (rest : List Char) (h : headDelim rest = true) :
    parseExp rest = some (1, rest) := by
  cases rest with
  | nil => rfl
  | cons c t =>
    simp only [headDelim, Bool.not_eq_true', Bool.or_eq_false_iff] at h
    have : ¬ (c = 'e' ∨ c = 'E') := by
      rintro (he | he) <;> rw [he] at h <;> simp at h
    simp [parseExp, this]

theorem natRepr_ne_nil (m : Nat) : natRepr m ≠ [] := by
  intro h
  have := pad_length (digitLen m) m
  rw [show pad (digitLen m) m = natRepr m from rfl, h] at this
  simp [digitLen] at this

theorem takeDigits_natRepr (m : Nat) (rest : List Char) (h : headNotDigit rest = true) :
    takeDigits (natRepr m ++ rest) = (natRepr m, rest) :=
  takeDigits_append _ _ (pad_isDigit _ _) h

theorem decodeDigits_natRepr (m : Nat) : decodeDigits (natRepr m) = m :=
  decodeDigits_pad _ _ (nat_lt_pow_digitLen m)

theorem rat_den_one_eq_num (r : ℚ) (h : r.den = 1) : (r.num : ℚ) = r := by
  have := Rat.num_div_den r
  rw [h] at this
  simpa using this

theorem decExp_spec (q : ℚ) (h : IsDecimal q) :
    ∃ k, decExp q = some k ∧ (q * (10 : ℚ) ^ k).den = 1 := by
  unfold decExp
  rcases hfind : (List.range (q.den + 1)).find? (fun k => (q * (10 : ℚ) ^ k).den == 1) with _ | k
  · exfalso
    have hall := List.find?_eq_none.mp hfind q.den (by simp)
    simp only [beq_iff_eq] at hall
    exact hall h
  · refine ⟨k, rfl, ?_⟩
    have := List.find?_some hfind
    simpa using this

theorem parseFrac_cons (c : Char) (cs : List Char) :
    parseFrac (c :: cs) =
      if c = '.' then
        (let p := takeDigits cs
         if p.1 = [] then none
         else some ((decodeDigits p.1 : ℚ) / (10 : ℚ) ^ p.1.length, p.2))
      else some (0, c :: cs) := rfl

theorem parseNum_dumpNum (q : ℚ) (hq : 0 ≤ q) (hd : IsDecimal q) (rest : List Char)
    (hrest : headDelim rest = true) :
    parseNum (dumpNum q ++ rest) = some (q, rest) := by
  obtain ⟨k, hk, hden⟩ := decExp_spec q hd
  have habs : |q| = q := abs_of_nonneg hq
  have hnn : 0 ≤ (q * (10 : ℚ) ^ k).num := by
    apply Rat.num_nonneg.mpr
    positivity
  have h1 : (((q * (10 : ℚ) ^ k).num.toNat : ℤ)) = (q * (10 : ℚ) ^ k).num :=
    Int.toNat_of_nonneg hnn
  have hmq : (((q * (10 : ℚ) ^ k).num.toNat : ℚ)) = q * (10 : ℚ) ^ k := by
    calc (((q * (10 : ℚ) ^ k).num.toNat : ℚ))
        = ((((q * (10 : ℚ) ^ k).num.toNat : ℤ)) : ℚ) := by push_cast; ring
      _ = (((q * (10 : ℚ) ^ k).num : ℤ) : ℚ) := by rw [h1]
      _ = q * (10 : ℚ) ^ k := rat_den_one_eq_num _ hden
  set m := (q * (10 : ℚ) ^ k).num.toNat with hm
  have hdump : dumpNum q = dumpNatFrac m k := by
    unfold dumpNum
    rw [habs, hk]
    simp [not_lt.mpr hq]
  rw [hdump]
  cases k with
  | zero =>
    have hq_eq : (m : ℚ) = q := by simpa using hmq
    show parseNum (natRepr m ++ rest) = some (q, rest)
    obtain ⟨c, t, hct⟩ : ∃ c t, natRepr m = c :: t := by
      cases hn : natRepr m with
      | nil => exact absurd hn (natRepr_ne_nil m)
      | cons c t => exact ⟨c, t, rfl⟩
    have hcdig : isDigitChar c = true := by
      apply pad_isDigit (digitLen m) m
      rw [show pad (digitLen m) m = natRepr m from rfl, hct]
      simp
    have hcdash : ¬ c = '-' := by
      intro he
      rw [he] at hcdig
      exact absurd hcdig (by decide)
    unfold parseNum
    rw [hct, List.cons_append]
    simp only [if_neg hcdash]
    rw [← List.cons_append, ← hct, takeDigits_natRepr m rest (headDelim_notDigit rest hrest)]
    simp only [natRepr_ne_nil m, if_neg, if_false, reduceIte]
    rw [parseFrac_delim rest hrest]
    simp only []
    rw [parseExp_delim rest hrest]
    simp only [decodeDigits_natRepr]
    rw [hq_eq]
    norm_num
  | succ k' =>
    show parseNum ((natRepr (m / 10 ^ (k' + 1)) ++ '.' :: pad (k' + 1) (m % 10 ^ (k' + 1))) ++ rest)
        = some (q, rest)
    rw [List.append_assoc, List.cons_append]
    obtain ⟨c, t, hct⟩ : ∃ c t, natRepr (m / 10 ^ (k' + 1)) = c :: t := by
      cases hn : natRepr (m / 10 ^ (k' + 1)) with
      | nil => exact absurd hn (natRepr_ne_nil _)
      | cons c t => exact ⟨c, t, rfl⟩
    have hcdig : isDigitChar c = true := by
      apply pad_isDigit (digitLen (m / 10 ^ (k' + 1))) (m / 10 ^ (k' + 1))
      rw [show pad (digitLen (m / 10 ^ (k' + 1))) (m / 10 ^ (k' + 1))
            = natRepr (m / 10 ^ (k' + 1)) from rfl, hct]
      simp
    have hcdash : ¬ c = '-' := by
      intro he
      rw [he] at hcdig
      exact absurd hcdig (by decide)
    unfold parseNum
    rw [hct, List.cons_append]
    simp only [if_neg hcdash]
    rw [← List.cons_append, ← hct,
        takeDigits_natRepr _ ('.' :: (pad (k' + 1) (m % 10 ^ (k' + 1)) ++ rest)) (by rfl)]
    simp only [natRepr_ne_nil _, if_neg, if_false, reduceIte]
    rw [parseFrac_cons, if_pos rfl]
    have hpadne : pad (k' + 1) (m % 10 ^ (k' + 1)) ≠ [] := by
      intro h
      have := pad_length (k' + 1) (m % 10 ^ (k' + 1))
      rw [h] at this
      simp at this
    simp only [takeDigits_append _ rest (pad_isDigit _ _) (headDelim_notDigit rest hrest)]
    rw [if_neg hpadne]
    have hFlt : m % 10 ^ (k' + 1) < 10 ^ (k' + 1) := Nat.mod_lt _ (by positivity)
    simp only [decodeDigits_natRepr, decodeDigits_pad _ _ hFlt, pad_length]
    simp only [parseExp_delim rest hrest, mul_one, Bool.false_eq_true, if_false]
    have hsplit : 10 ^ (k' + 1) * (m / 10 ^ (k' + 1)) + m % 10 ^ (k' + 1) = m :=
      Nat.div_add_mod m (10 ^ (k' + 1))
    have hIF : ((m / 10 ^ (k' + 1) : Nat) : ℚ) * 10 ^ (k' + 1) + ((m % 10 ^ (k' + 1) : Nat) : ℚ)
        = (m : ℚ) := by
      have hc := congrArg (fun n : ℕ => (n : ℚ)) hsplit
      push_cast at hc
      linarith
    have hval : (((m / 10 ^ (k' + 1) : Nat) : ℚ)
          + ((m % 10 ^ (k' + 1) : Nat) : ℚ) / (10 : ℚ) ^ (k' + 1)) = q := by
      have h10 : ((10 : ℚ) ^ (k' + 1)) ≠ 0 := by positivity
      field_simp
      linarith [hIF, hmq]
    rw [hval]

/-! Value-level JSON parsing lemmas. -/

theorem skipWs_cons_not (c : Char) (cs : List Char) (h : isWs c = false) :
    skipWs (c :: cs) = c :: cs := by
  unfold skipWs
  rw [h]
  simp

theorem parseVal_ws (fuel : Nat) (cs : List Char) :
    parseVal fuel (' ' :: cs) = parseVal fuel cs := by
  cases fuel with
  | zero => rfl
  | succ f =>
    unfold parseVal
    rw [show skipWs (' ' :: cs) = skipWs cs from rfl]

theorem parseItems_ws (fuel : Nat) (cs : List Char) :
    parseItems fuel (' ' :: cs) = parseItems fuel cs := by
  cases fuel with
  | zero => rfl
  | succ f =>
    unfold parseItems
    rw [parseVal_ws]

theorem parseMems_ws (fuel : Nat) (cs : List Char) :
    parseMems fuel (' ' :: cs) = parseMems fuel cs := by
  cases fuel with
  | zero => rfl
  | succ f =>
    unfold parseMems
    rw [show skipWs (' ' :: cs) = skipWs cs from rfl]

theorem natRepr_head (m : Nat) : ∃ c t, natRepr m = c :: t ∧ isDigitChar c = true := by
  cases hn : natRepr m with
  | nil => exact absurd hn (natRepr_ne_nil m)
  | cons c t =>
    refine ⟨c, t, rfl, ?_⟩
    apply pad_isDigit (digitLen m) m
    rw [show pad (digitLen m) m = natRepr m from rfl, hn]
    simp

theorem parseVal_str (f : Nat) (s : String) (rest : List Char) :
    parseVal (f + 1) (dumpVal (.vstr s) ++ rest) = some (.vstr s, rest) := by
  show parseVal (f + 1) (('"' :: (escapeStr s.data ++ ['"'])) ++ rest) = _
  rw [List.cons_append, List.append_assoc, List.singleton_append]
  unfold parseVal
  rw [skipWs_cons_not '"' (escapeStr s.data ++ '"' :: rest) rfl]
  simp only [reduceIte]
  rw [if_neg (by decide), if_neg (by decide), if_neg (by decide), parseStrAux_escape]

theorem dumpNum_head (q : ℚ) (hq : 0 ≤ q) (hd : IsDecimal q) :
    ∃ c t, dumpNum q = c :: t ∧ isDigitChar c = true := by
  obtain ⟨k, hk, hden⟩ := decExp_spec q hd
  have habs : |q| = q := abs_of_nonneg hq
  unfold dumpNum
  rw [habs, hk]
  simp only [not_lt.mpr hq, if_false, List.nil_append, reduceIte]
  cases k with
  | zero =>
    obtain ⟨c, t, hct, hcd⟩ := natRepr_head ((q * (10 : ℚ) ^ 0).num.toNat)
    exact ⟨c, t, hct, hcd⟩
  | succ k' =>
    obtain ⟨c, t, hct, hcd⟩ := natRepr_head ((q * (10 : ℚ) ^ (k' + 1)).num.toNat / 10 ^ (k' + 1))
    refine ⟨c, t ++ '.' :: pad (k' + 1) ((q * (10 : ℚ) ^ (k' + 1)).num.toNat % 10 ^ (k' + 1)),
      ?_, hcd⟩
    show natRepr _ ++ _ = _
    rw [hct, List.cons_append]

theorem isWs_of_digit (c : Char) (h : isDigitChar c = true) : isWs c = false := by
  have h1 : ¬ c = ' ' := fun he => by rw [he] at h; exact absurd h (by decide)
  have h2 : ¬ c = '\t' := fun he => by rw [he] at h; exact absurd h (by decide)
  have h3 : ¬ c = '\n' := fun he => by rw [he] at h; exact absurd h (by decide)
  have h4 : ¬ c = '\r' := fun he => by rw [he] at h; exact absurd h (by decide)
  unfold isWs
  simp [h1, h2, h3, h4]

theorem parseVal_num (f : Nat) (q : ℚ) (rest : List Char) (hq : 0 ≤ q) (hd : IsDecimal q)
    (hrest : headDelim rest = true) :
    parseVal (f + 1) (dumpNum q ++ rest) = some (.vnum q, rest) := by
  obtain ⟨c, t, hct, hcd⟩ := dumpNum_head q hq hd
  have h1 : ¬ c = 'n' := fun he => by rw [he] at hcd; exact absurd hcd (by decide)
  have h2 : ¬ c = 't' := fun he => by rw [he] at hcd; exact absurd hcd (by decide)
  have h3 : ¬ c = 'f' := fun he => by rw [he] at hcd; exact absurd hcd (by decide)
  have h4 : ¬ c = '"' := fun he => by rw [he] at hcd; exact absurd hcd (by decide)
  have h5 : ¬ c = '[' := fun he => by rw [he] at hcd; exact absurd hcd (by decide)
  have h6 : ¬ c = '\x7b' := fun he => by rw [he] at hcd; exact absurd hcd (by decide)
  unfold parseVal
  rw [hct, List.cons_append, skipWs_cons_not _ _ (isWs_of_digit c hcd)]
  simp only [h1, h2, h3, h4, h5, h6, if_false]
  rw [← List.cons_append, ← hct, parseNum_dumpNum q hq hd rest hrest]

theorem dumpVal_emotion_shape (e : EmotionIntensity) :
    dumpVal (emotionVal e) =
      '\x7b' :: ('"' :: (escapeStr "name".data ++ '"' :: ':' :: ' ' :: dumpVal (.vstr e.name))
        ++ ',' :: ' ' :: ('"' :: (escapeStr "intensity".data ++ '"' :: ':' :: ' '
        :: dumpVal (.vnum e.intensity)))
        ++ ['\x7d']) := by
  show dumpVal (.vdict [("name", .vstr e.name), ("intensity", .vnum e.intensity)]) = _
  simp [dumpVal, dumpMems, List.append_assoc]

theorem parseVal_emotion (f : Nat) (e : EmotionIntensity) (rest : List Char)
    (hq : 0 ≤ e.intensity) (hd : IsDecimal e.intensity) :
    parseVal (f + 4) (dumpVal (emotionVal e) ++ rest) = some (emotionVal e, rest) := by
  rw [dumpVal_emotion_shape, List.cons_append]
  show parseVal ((f + 3) + 1) _ = _
  unfold parseVal
  rw [skipWs_cons_not '\x7b' _ rfl]
  simp only [Char.reduceEq, reduceIte, if_true, if_false]
  simp only [List.cons_append, List.append_assoc, List.nil_append, List.singleton_append]
  rw [skipWs_cons_not '"' _ rfl]
  simp only [Char.reduceEq, reduceIte, if_true, if_false]
  rw [show (f + 3) = (f + 2) + 1 from rfl]
  unfold parseMems
  rw [skipWs_cons_not '"' _ rfl]
  simp only [Char.reduceEq, reduceIte, if_true, if_false]
  rw [parseStrAux_escape]
  dsimp only
  rw [skipWs_cons_not ':' _ rfl]
  simp only [Char.reduceEq, reduceIte, if_true, if_false]
  rw [parseVal_ws]
  rw [show (f + 2) = (f + 1) + 1 from rfl, parseVal_str (f + 1) e.name]
  dsimp only
  rw [skipWs_cons_not ',' _ rfl]
  simp only [Char.reduceEq, reduceIte, if_true, if_false]
  rw [parseMems_ws]
  unfold parseMems
  rw [skipWs_cons_not '"' _ rfl]
  simp only [Char.reduceEq, reduceIte, if_true, if_false]
  rw [parseStrAux_escape]
  dsimp only
  rw [skipWs_cons_not ':' _ rfl]
  simp only [Char.reduceEq, reduceIte, if_true, if_false]
  rw [parseVal_ws]
  rw [show dumpVal (PyVal.vnum e.intensity) = dumpNum e.intensity from rfl]
  rw [parseVal_num f e.intensity ('\x7d' :: rest) hq hd rfl]
  dsimp only
  rw [skipWs_cons_not '\x7d' _ rfl]
  simp only [Char.reduceEq, reduceIte, if_true, if_false]
  rfl

theorem dumpEmotion_len (e : EmotionIntensity) : 3 ≤ (dumpVal (emotionVal e)).length := by
  rw [dumpVal_emotion_shape]
  simp [List.length_append]
  omega

theorem parseItems_emotions (es : List EmotionIntensity) (f : Nat) (rest : List Char)
    (hne : es ≠ [])
    (hval : ∀ e ∈ es, 0 ≤ e.intensity ∧ IsDecimal e.intensity) :
    parseItems (2 * es.length + f + 3) (dumpElems (es.map emotionVal) ++ ']' :: rest)
      = some (es.map emotionVal, rest) := by
  induction es generalizing f with
  | nil => exact absurd rfl hne
  | cons e t ih =>
    obtain ⟨he1, he2⟩ := hval e (by simp)
    cases t with
    | nil =>
      show parseItems (2 * 1 + f + 3) (dumpVal (emotionVal e) ++ ']' :: rest) = _
      rw [show 2 * 1 + f + 3 = (f + 4) + 1 from by omega]
      unfold parseItems
      rw [parseVal_emotion f e (']' :: rest) he1 he2]
      dsimp only
      rw [skipWs_cons_not ']' _ rfl]
      simp only [Char.reduceEq, reduceIte, if_true, if_false]
      rfl
    | cons e2 t2 =>
      show parseItems (2 * (t2.length + 1 + 1) + f + 3)
          ((dumpVal (emotionVal e) ++ ',' :: ' ' :: dumpElems ((e2 :: t2).map emotionVal))
            ++ ']' :: rest) = _
      rw [List.append_assoc]
      simp only [List.cons_append]
      rw [show 2 * (t2.length + 1 + 1) + f + 3 = (2 * t2.length + f + 6) + 1 from by omega]
      unfold parseItems
      rw [show 2 * t2.length + f + 6 = (2 * t2.length + f + 2) + 4 from by omega]
      rw [parseVal_emotion (2 * t2.length + f + 2) e _ he1 he2]
      dsimp only
      rw [skipWs_cons_not ',' _ rfl]
      simp only [Char.reduceEq, reduceIte, if_true, if_false]
      rw [parseItems_ws]
      rw [show (2 * t2.length + f + 2) + 4 = 2 * (e2 :: t2).length + (f + 1) + 3 from by
        simp [List.length_cons]
        omega]
      rw [ih (f + 1) (by simp) (fun x hx => hval x (by simp [hx]))]
      rfl

theorem dumpElems_emotions_len (es : List EmotionIntensity) (h : es ≠ []) :
    2 * es.length + 1 ≤ (dumpElems (es.map emotionVal)).length := by
  induction es with
  | nil => contradiction
  | cons e t ih =>
    cases t with
    | nil =>
      show 2 * [e].length + 1 ≤ (dumpVal (emotionVal e)).length
      have := dumpEmotion_len e
      simp only [List.length_cons, List.length_nil]
      omega
    | cons e2 t2 =>
      show _ ≤ (dumpVal (emotionVal e)
          ++ ',' :: ' ' :: dumpElems ((e2 :: t2).map emotionVal)).length
      rw [List.length_append]
      have h1 := dumpEmotion_len e
      have h2 := ih (by simp)
      simp only [List.length_cons] at *
      omega

theorem dumpElems_emotions_head (e : EmotionIntensity) (t : List EmotionIntensity)
    (Z : List Char) :
    ∃ Y, dumpElems ((e :: t).map emotionVal) ++ Z = '\x7b' :: Y := by
  cases t with
  | nil =>
    exact ⟨_, by
      rw [show dumpElems (List.map emotionVal [e]) = dumpVal (emotionVal e) from rfl,
        dumpVal_emotion_shape, List.cons_append]⟩
  | cons e2 t2 =>
    exact ⟨_, by
      rw [show dumpElems (List.map emotionVal (e :: e2 :: t2))
            = dumpVal (emotionVal e) ++ ',' :: ' ' :: dumpElems (List.map emotionVal (e2 :: t2))
          from rfl, dumpVal_emotion_shape]
      simp only [List.cons_append, List.append_assoc]
      rfl⟩

theorem parseVal_bracket (fuel : Nat) (X : List Char) (c : Char) (Y : List Char)
    (hXcons : X = c :: Y) (hc : isWs c = false) (hne : ¬ c = ']') :
    parseVal (fuel + 1) ('[' :: X) =
      (match parseItems fuel X with
       | some (xs, r) => some (.vlist xs, r)
       | none => none) := by
  unfold parseVal
  rw [skipWs_cons_not '[' _ rfl]
  simp only [Char.reduceEq, reduceIte, if_true, if_false]
  rw [hXcons, skipWs_cons_not c Y hc]
  simp only [eq_false hne, if_false]

theorem jsonLoads_serialize (es : List EmotionIntensity)
    (hval : ∀ e ∈ es, 0 ≤ e.intensity ∧ IsDecimal e.intensity) :
    jsonLoads (serialize_emotions es) = some (.vlist (es.map emotionVal)) := by
  cases es with
  | nil => rfl
  | cons e t =>
    unfold jsonLoads serialize_emotions
    rw [show (String.mk (dumpVal (.vlist ((e :: t).map emotionVal)))).data
          = dumpVal (.vlist ((e :: t).map emotionVal)) from rfl]
    have hshape : dumpVal (.vlist ((e :: t).map emotionVal))
        = '[' :: (dumpElems ((e :: t).map emotionVal) ++ [']']) := rfl
    obtain ⟨g, hg⟩ : ∃ g, (dumpVal (.vlist ((e :: t).map emotionVal))).length
        = (2 * (e :: t).length + g + 3) := by
      have h1 := dumpElems_emotions_len (e :: t) (by simp)
      refine ⟨(dumpVal (.vlist ((e :: t).map emotionVal))).length
        - (2 * (e :: t).length + 3), ?_⟩
      rw [hshape]
      simp only [List.length_cons, List.length_append, List.length_nil] at h1 ⊢
      omega
    rw [hg]
    obtain ⟨Y, hY⟩ := dumpElems_emotions_head e t [']']
    rw [hshape]
    rw [show (2 * (e :: t).length + g + 3) + 1 = ((2 * (e :: t).length + g + 3)) + 1 from rfl]
    rw [parseVal_bracket (2 * (e :: t).length + g + 3) _ '\x7b' Y hY rfl (by decide)]
    rw [show dumpElems ((e :: t).map emotionVal) ++ [']']
          = dumpElems ((e :: t).map emotionVal) ++ ']' :: [] from rfl]
    rw [parseItems_emotions (e :: t) g [] (by simp) hval]
    rfl

theorem serialize_ne_empty (es : List EmotionIntensity) : serialize_emotions es ≠ "" := by
  unfold serialize_emotions
  intro h
  have hd : ('[' :: (dumpElems (es.map emotionVal) ++ [']'])) = ([] : List Char) :=
    congrArg String.data h
  exact List.noConfusion hd

theorem emotionOfItem_emotionVal (e : EmotionIntensity) (h : ValidEmotion e) :
    emotionOfItem (emotionVal e) = .ok e := by
  obtain ⟨hdec, h0, h1⟩ := h
  show (match List.lookup "name" [("intensity", PyVal.vnum e.intensity), ("name", PyVal.vstr e.name)],
        List.lookup "intensity" [("intensity", PyVal.vnum e.intensity), ("name", PyVal.vstr e.name)] with
     | some (.vstr n), some (.vnum q) => mkEmotionIntensity n q
     | _, _ => .error .validation) = .ok e
  rw [show List.lookup "name" [("intensity", PyVal.vnum e.intensity), ("name", PyVal.vstr e.name)]
        = some (PyVal.vstr e.name) from by simp [List.lookup]]
  rw [show List.lookup "intensity" [("intensity", PyVal.vnum e.intensity), ("name", PyVal.vstr e.name)]
        = some (PyVal.vnum e.intensity) from by simp [List.lookup]]
  show mkEmotionIntensity e.name e.intensity = .ok e
  unfold mkEmotionIntensity
  rw [if_pos ⟨h0, h1⟩]

theorem mapM_emotionVal (es : List EmotionIntensity)
    (hval : ∀ e ∈ es, ValidEmotion e) :
    (es.map emotionVal).mapM emotionOfItem = .ok es := by
  induction es with
  | nil => rfl
  | cons e t ih =>
    rw [List.map_cons, List.mapM_cons]
    rw [emotionOfItem_emotionVal e (hval e (by simp))]
    rw [ih (fun x hx => hval x (by simp [hx]))]
    rfl

theorem deserialize_serialize (es : List EmotionIntensity)
    (hval : ∀ e ∈ es, ValidEmotion e) :
    deserialize_emotions (serialize_emotions es) = .ok es := by
  unfold deserialize_emotions
  rw [if_neg (serialize_ne_empty es)]
  rw [jsonLoads_serialize es (fun e he => ⟨(hval e he).2.1, (hval e he).1⟩)]
  show emotionsOfVal (.vlist (es.map emotionVal)) = .ok es
  unfold emotionsOfVal
  exact mapM_emotionVal es hval

theorem rowToInteraction_interactionToRow (rec : FamiliarInteraction)
    (hts : rec.timestamp.Valid) (hem : ∀ e ∈ rec.emotions, ValidEmotion e) :
    rowToInteraction (interactionToRow rec) = .ok rec := by
  simp only [rowToInteraction, interactionToRow, deserialize_serialize rec.emotions hem,
    fromIso_isoformat rec.timestamp hts]
  rfl

theorem rowMatches_none (r : InteractionRow) : rowMatches none none none r = true := rfl

theorem mapM_rowToInteraction (recs : List FamiliarInteraction)
    (hv : ∀ r ∈ recs, r.timestamp.Valid ∧ ∀ e ∈ r.emotions, ValidEmotion e) :
    (recs.map interactionToRow).mapM rowToInteraction = .ok recs := by
  induction recs with
  | nil => rfl
  | cons r t ih =>
    rw [List.map_cons, List.mapM_cons]
    rw [rowToInteraction_interactionToRow r (hv r (by simp)).1 (hv r (by simp)).2]
    rw [ih (fun x hx => hv x (by simp [hx]))]
    rfl

/-- C3: for every valid interaction record and every prior table state,
`add_interaction` followed by `get_interactions` with no filters yields the
prior result extended by a record equal in every field to the one inserted
(the timestamp round-trips through its ISO text back to the same instant and
the emotion sequence round-trips through its JSON text element by element). -/
theorem C3_add_get_roundtrip (rec : FamiliarInteraction) (db : List InteractionRow)
    (hts : rec.timestamp.Valid) (hem : ∀ e ∈ rec.emotions, ValidEmotion e) :
    get_interactions none none none (add_interaction rec db).1
      = Except.map (fun l => l ++ [rec]) (get_interactions none none none db) := by
  show (List.filter (rowMatches none none none) (db ++ [interactionToRow rec])).mapM
        rowToInteraction
      = Except.map (fun l => l ++ [rec])
          ((List.filter (rowMatches none none none) db).mapM rowToInteraction)
  rw [List.filter_append]
  rw [show List.filter (rowMatches none none none) [interactionToRow rec]
        = [interactionToRow rec] from rfl]
  rw [List.mapM_append]
  rw [show (List.mapM rowToInteraction [interactionToRow rec] : Except PyErr _)
        = .ok [rec] from by
      rw [List.mapM_cons, rowToInteraction_interactionToRow rec hts hem]; rfl]
  cases hM : (List.filter (rowMatches none none none) db).mapM rowToInteraction with
  | error e => rfl
  | ok l => rfl

theorem C3_add_get_roundtrip_witness :
    get_interactions none none none (add_interaction demoInteraction []).1
      = Except.map (fun l => l ++ [demoInteraction]) (get_interactions none none none []) :=
  C3_add_get_roundtrip demoInteraction [] (by decide)
    (of_decide_eq_true (by with_unfolding_all rfl))

theorem rowMatches_toRow (mid : Option String) (start stop : Option DateTime)
    (r : FamiliarInteraction) (hr : r.timestamp.Valid)
    (hstart : ∀ s, start = some s → s.Valid)
    (hstop : ∀ s, stop = some s → s.Valid) :
    rowMatches mid start stop (interactionToRow r)
      = ((match mid with
          | none => true
          | some m => r.model_id == some m) &&
         (match start with
          | none => true
          | some s => decide (DateTime.le s r.timestamp)) &&
         (match stop with
          | none => true
          | some e => decide (DateTime.le r.timestamp e))) := by
  cases start with
  | none =>
    cases stop with
    | none => rfl
    | some e2 =>
      have h2 := strGe_iso e2 r.timestamp (hstop e2 rfl) hr
      simp only [rowMatches,
        show (interactionToRow r).timestamp = isoformat r.timestamp from rfl,
        show (interactionToRow r).model_id = r.model_id from rfl, h2]
  | some s =>
    cases stop with
    | none =>
      have h1 := strGe_iso r.timestamp s hr (hstart s rfl)
      simp only [rowMatches,
        show (interactionToRow r).timestamp = isoformat r.timestamp from rfl,
        show (interactionToRow r).model_id = r.model_id from rfl, h1]
    | some e2 =>
      have h1 := strGe_iso r.timestamp s hr (hstart s rfl)
      have h2 := strGe_iso e2 r.timestamp (hstop e2 rfl) hr
      simp only [rowMatches,
        show (interactionToRow r).timestamp = isoformat r.timestamp from rfl,
        show (interactionToRow r).model_id = r.model_id from rfl, h1, h2]

/-- C4: on a table of valid stored records, `get_interactions` with any
combination of the optional filters returns exactly the records satisfying
the conjunction — `model_id` equal to the given model if one is given,
timestamp at or after `start` if given, and timestamp at or before `stop`
if given, both time bounds inclusive at the instant level. -/
theorem C4_filters (mid : Option String) (start stop : Option DateTime)
    (recs : List FamiliarInteraction)
    (hv : ∀ r ∈ recs, r.timestamp.Valid ∧ ∀ e ∈ r.emotions, ValidEmotion e)
    (hstart : ∀ s, start = some s → s.Valid)
    (hstop : ∀ s, stop = some s → s.Valid) :
    get_interactions mid start stop (recs.map interactionToRow)
      = .ok (recs.filter fun r =>
          (match mid with
           | none => true
           | some m => r.model_id == some m) &&
          (match start with
           | none => true
           | some s => decide (DateTime.le s r.timestamp)) &&
          (match stop with
           | none => true
           | some e => decide (DateTime.le r.timestamp e))) := by
  unfold get_interactions
  rw [List.filter_map]
  simp only [Function.comp_def]
  rw [List.filter_congr (fun r hr =>
    rowMatches_toRow mid start stop r (hv r hr).1 hstart hstop)]
  exact mapM_rowToInteraction _ (fun r hr => hv r (List.mem_filter.mp hr).1)

theorem C4_filters_witness :
    get_interactions (some "claude") (some ⟨2024, 1, 1, 0, 0, 0, 0⟩)
        (some ⟨2024, 12, 31, 23, 59, 59, 0⟩) ([demoInteraction].map interactionToRow)
      = .ok ([demoInteraction].filter fun r =>
          (r.model_id == some "claude") &&
          decide (DateTime.le ⟨2024, 1, 1, 0, 0, 0, 0⟩ r.timestamp) &&
          decide (DateTime.le r.timestamp ⟨2024, 12, 31, 23, 59, 59, 0⟩)) :=
  C4_filters (some "claude") (some ⟨2024, 1, 1, 0, 0, 0, 0⟩)
    (some ⟨2024, 12, 31, 23, 59, 59, 0⟩) [demoInteraction]
    (fun r hr => by
      rw [List.mem_singleton.mp hr]
      exact ⟨of_decide_eq_true (by with_unfolding_all rfl),
             of_decide_eq_true (by with_unfolding_all rfl)⟩)
    (fun s hs => by rw [Option.some.injEq] at hs; rw [← hs]; decide)
    (fun s hs => by rw [Option.some.injEq] at hs; rw [← hs]; decide)

theorem success_fold (rits : List RitualOutcome) (p : Nat × Nat) :
    rits.foldl (fun (p : Nat × Nat) r => (p.1 + 1, if r.success then p.2 + 1 else p.2)) p
      = (p.1 + rits.length, p.2 + rits.countP (fun r => r.success)) := by
  induction rits generalizing p with
  | nil => simp
  | cons r t ih =>
    rw [List.foldl_cons, ih]
    by_cases h : r.success = true <;>
      (simp [h, List.countP_cons, List.length_cons]; omega)

/-- C7: `compute_success_rate` returns the fraction of successful rituals —
the number of rituals with `success = true` divided by the collection's
length — for every non-empty collection, returns exactly 0 on the empty
collection, and in particular returns 2/3 on a success/failure/success
triple. -/
theorem C7_success_rate :
    (∀ rits : List RitualOutcome,
        compute_success_rate rits
          = if rits = [] then 0
            else (rits.countP (fun r => r.success) : ℚ) / (rits.length : ℚ)) ∧
    compute_success_rate [] = 0 ∧
    compute_success_rate [plainRitual true, plainRitual false, plainRitual true] = 2/3 := by
  refine ⟨?_, rfl, ?_⟩
  · intro rits
    simp only [compute_success_rate]
    rw [success_fold]
    cases rits with
    | nil => simp
    | cons r t =>
      rw [if_pos (by simp), if_neg (by simp)]
      simp
  · show (((2 : Nat) : ℚ)) / (((3 : Nat) : ℚ)) = 2 / 3
    norm_num

theorem bumpCount_lookup (k n : String) (l : List (String × Nat)) :
    (bumpCount k l).lookup n
      = if k = n then some (((l.lookup n).getD 0) + 1) else l.lookup n := by
  induction l with
  | nil =>
    by_cases h : k = n
    · subst h
      simp [bumpCount, List.lookup]
    · simp [bumpCount, List.lookup, h,
        beq_eq_false_iff_ne.mpr (fun g : n = k => h g.symm)]
  | cons p t ih =>
    obtain ⟨k2, c⟩ := p
    by_cases h2 : k2 = k
    · subst h2
      by_cases h : k2 = n
      · subst h
        simp [bumpCount, List.lookup]
      · simp [bumpCount, List.lookup, h,
          beq_eq_false_iff_ne.mpr (fun g : n = k2 => h g.symm)]
    · by_cases h : k2 = n
      · subst h
        simp [bumpCount, List.lookup, h2,
          beq_eq_false_iff_ne.mpr (fun g : k = k2 => h2 g.symm)]
        rw [if_neg (fun g : k = k2 => h2 g.symm)]
      · simp [bumpCount, List.lookup, h2, ih,
          beq_eq_false_iff_ne.mpr (fun g : n = k2 => h g.symm)]

theorem bumpModel_lookup (mk en k : String)
    (m : List (String × List (String × Nat))) :
    (bumpModel mk en m).lookup k
      = if mk = k then some (bumpCount en ((m.lookup k).getD [])) else m.lookup k := by
  induction m with
  | nil =>
    by_cases h : mk = k
    · subst h
      simp [bumpModel, List.lookup, bumpCount]
    · simp [bumpModel, List.lookup, h,
        beq_eq_false_iff_ne.mpr (fun g : k = mk => h g.symm)]
  | cons p t ih =>
    obtain ⟨m2, cs⟩ := p
    by_cases h2 : m2 = mk
    · subst h2
      by_cases h : m2 = k
      · subst h
        simp [bumpModel, List.lookup]
      · simp [bumpModel, List.lookup, h,
          beq_eq_false_iff_ne.mpr (fun g : k = m2 => h g.symm)]
    · by_cases h : m2 = k
      · subst h
        simp [bumpModel, List.lookup, h2,
          beq_eq_false_iff_ne.mpr (fun g : m2 = mk => h2 g)]
        rw [if_neg (fun g : mk = m2 => h2 g.symm)]
      · simp [bumpModel, List.lookup, h2, ih,
          beq_eq_false_iff_ne.mpr (fun g : k = m2 => h g.symm)]

theorem bumpModel_count (mk en k n : String)
    (m : List (String × List (String × Nat))) :
    lookupModelCount (bumpModel mk en m) k n
      = lookupModelCount m k n + (if mk = k ∧ en = n then 1 else 0) := by
  unfold lookupModelCount
  rw [bumpModel_lookup]
  by_cases h1 : mk = k
  · rw [if_pos h1]
    dsimp only
    rw [bumpCount_lookup]
    by_cases h2 : en = n
    · rw [if_pos h2, if_pos ⟨h1, h2⟩]
      cases hm : m.lookup k with
      | none => simp
      | some cs => simp
    · rw [if_neg h2, if_neg (fun g => h2 g.2)]
      cases hm : m.lookup k with
      | none => simp
      | some cs => simp
  · rw [if_neg h1, if_neg (fun g => h1 g.1)]
    simp

theorem fold_bumpModel_emotions (mk : String) (es : List EmotionIntensity)
    (m : List (String × List (String × Nat))) (k n : String) :
    lookupModelCount (es.foldl (fun a e => bumpModel mk e.name a) m) k n
      = lookupModelCount m k n + (if mk = k then countEm n es else 0) := by
  induction es generalizing m with
  | nil => simp [countEm]
  | cons e t ih =>
    rw [List.foldl_cons, ih, bumpModel_count]
    by_cases h1 : mk = k <;> by_cases h2 : e.name = n <;>
      (simp [countEm, List.countP_cons, h1, h2]; try omega)

theorem fold_bumpModel_records {α : Type} (key : α → String)
    (ems : α → List EmotionIntensity) (recs : List α)
    (m : List (String × List (String × Nat))) (k n : String) :
    lookupModelCount
        (recs.foldl
          (fun acc r => (ems r).foldl (fun a e => bumpModel (key r) e.name a) acc) m) k n
      = lookupModelCount m k n
        + ((recs.map fun r => if key r = k then countEm n (ems r) else 0).sum) := by
  induction recs generalizing m with
  | nil => simp
  | cons r t ih =>
    rw [List.foldl_cons, ih, fold_bumpModel_emotions]
    simp only [List.map_cons, List.sum_cons]
    omega

/-- C8: `emotion_counts_by_model` groups per-occurrence emotion counts by
model key, with interactions and rituals contributing to the same tally: the
count stored under model key `k` for emotion `n` is the total number of
occurrences of `n` in interactions whose key is `k` plus those in rituals
whose key is `k`; a record with no `model_id` is keyed by the literal string
"unknown". -/
theorem C8_counts_by_model :
    (∀ (ints : List FamiliarInteraction) (rits : List RitualOutcome) (k n : String),
      lookupModelCount (emotion_counts_by_model ints rits) k n
        = ((ints.map fun i => if pyKey i.model_id = k then countEm n i.emotions else 0).sum)
          + ((rits.map fun r => if pyKey r.model_id = k then countEm n r.emotions else 0).sum)) ∧
    pyKey none = "unknown" := by
  refine ⟨?_, rfl⟩
  intro ints rits k n
  simp only [emotion_counts_by_model]
  rw [fold_bumpModel_records (fun r : RitualOutcome => pyKey r.model_id)
    (fun r => r.emotions)]
  rw [fold_bumpModel_records (fun i : FamiliarInteraction => pyKey i.model_id)
    (fun i => i.emotions)]
  simp [lookupModelCount]

theorem bumpSF_lookup (k n : String) (succ : Bool) (l : List (String × (Nat × Nat))) :
    (bumpSF k succ l).lookup n
      = if k = n then
          some (if succ then (((l.lookup n).getD (0, 0)).1 + 1, ((l.lookup n).getD (0, 0)).2)
                else (((l.lookup n).getD (0, 0)).1, ((l.lookup n).getD (0, 0)).2 + 1))
        else l.lookup n := by
  induction l with
  | nil =>
    by_cases h : k = n
    · subst h
      cases succ <;> simp [bumpSF, List.lookup]
    · cases succ <;>
        simp [bumpSF, List.lookup, h,
          beq_eq_false_iff_ne.mpr (fun g : n = k => h g.symm)]
  | cons p t ih =>
    obtain ⟨k2, sf⟩ := p
    by_cases h2 : k2 = k
    · subst h2
      by_cases h : k2 = n
      · subst h
        cases succ <;> simp [bumpSF, List.lookup]
      · cases succ <;>
          simp [bumpSF, List.lookup, h,
            beq_eq_false_iff_ne.mpr (fun g : n = k2 => h g.symm)]
    · by_cases h : k2 = n
      · subst h
        simp [bumpSF, List.lookup, h2,
          beq_eq_false_iff_ne.mpr (fun g : k2 = k => h2 g)]
        rw [if_neg (fun g : k = k2 => h2 g.symm)]
      · simp [bumpSF, List.lookup, h2, ih,
          beq_eq_false_iff_ne.mpr (fun g : n = k2 => h g.symm)]

theorem bumpSF_count (k n : String) (succ : Bool) (l : List (String × (Nat × Nat))) :
    ((bumpSF k succ l).lookup n).getD (0, 0)
      = (((l.lookup n).getD (0, 0)).1 + (if succ ∧ k = n then 1 else 0),
         ((l.lookup n).getD (0, 0)).2 + (if ¬ succ ∧ k = n then 1 else 0)) := by
  rw [bumpSF_lookup]
  by_cases h : k = n
  · cases succ <;> simp [h]
  · cases succ <;> simp [h]

theorem fold_bumpSF_emotions (succ : Bool) (es : List EmotionIntensity)
    (m : List (String × (Nat × Nat))) (n : String) :
    ((es.foldl (fun a e => bumpSF e.name succ a) m).lookup n).getD (0, 0)
      = (((m.lookup n).getD (0, 0)).1 + (if succ then countEm n es else 0),
         ((m.lookup n).getD (0, 0)).2 + (if succ then 0 else countEm n es)) := by
  induction es generalizing m with
  | nil => cases succ <;> simp [countEm]
  | cons e t ih =>
    rw [List.foldl_cons, ih, bumpSF_count]
    by_cases h2 : e.name = n <;> cases succ <;>
      simp [countEm, List.countP_cons, h2] <;> omega

theorem fold_bumpSF_rituals (rits : List RitualOutcome)
    (m : List (String × (Nat × Nat))) (n : String) :
    (((rits.foldl (fun acc r => r.emotions.foldl (fun a e => bumpSF e.name r.success a) acc) m).lookup n).getD (0, 0))
      = (((m.lookup n).getD (0, 0)).1
           + (rits.map fun r => if r.success then countEm n r.emotions else 0).sum,
         ((m.lookup n).getD (0, 0)).2
           + (rits.map fun r => if r.success then 0 else countEm n r.emotions).sum) := by
  induction rits generalizing m with
  | nil => simp
  | cons r t ih =>
    rw [List.foldl_cons, ih, fold_bumpSF_emotions]
    simp only [List.map_cons, List.sum_cons]
    cases hr : r.success <;> simp <;> omega

theorem fold_bumpSF_all_empty (rits : List RitualOutcome)
    (h : ∀ r ∈ rits, r.emotions = []) (m : List (String × (Nat × Nat))) :
    rits.foldl (fun acc r => r.emotions.foldl (fun a e => bumpSF e.name r.success a) acc) m
      = m := by
  induction rits generalizing m with
  | nil => rfl
  | cons r t ih =>
    rw [List.foldl_cons, h r (by simp), List.foldl_nil]
    exact ih (fun x hx => h x (by simp [hx])) m

/-- C9 counterexample: on a single successful ritual that lists the emotion
"joy" twice, the source tallies one increment per occurrence and reports a
success count of 2, while a per-ritual tally across the rituals carrying the
emotion reports 1 — the spec's per-ritual reading does not match the code. -/
theorem C9_per_occurrence_counterexample :
    ritual_success_by_emotion [dupEmotionRite] = [("joy", (2, 0))] ∧
    ritualsCarryingTally [dupEmotionRite] "joy" = (1, 0) := ⟨rfl, rfl⟩

/-- C9 (amended): `ritual_success_by_emotion` maps each emotion name to a
pair counting, per OCCURRENCE of that emotion in a ritual's emotion list,
the occurrences inside successful rituals and inside failed rituals (a
ritual listing an emotion twice contributes twice); a collection in which
every ritual has no emotions yields the empty mapping. -/
theorem C9_success_by_emotion :
    (∀ (rits : List RitualOutcome) (n : String),
        (((ritual_success_by_emotion rits).lookup n).getD (0, 0))
          = ((rits.map fun r => if r.success then countEm n r.emotions else 0).sum,
             (rits.map fun r => if r.success then 0 else countEm n r.emotions).sum)) ∧
    (∀ rits : List RitualOutcome, (∀ r ∈ rits, r.emotions = []) →
        ritual_success_by_emotion rits = []) := by
  constructor
  · intro rits n
    unfold ritual_success_by_emotion
    rw [fold_bumpSF_rituals]
    simp [List.lookup]
  · intro rits h
    exact fold_bumpSF_all_empty rits h []

theorem C9_success_by_emotion_witness :
    ritual_success_by_emotion [plainRitual true, plainRitual false] = [] :=
  C9_success_by_emotion.2 [plainRitual true, plainRitual false] (by decide)

/-- C10: in `emotion_counts_by_model` a record whose `model_id` is the empty
string is grouped exactly like a record whose `model_id` is absent — the
grouping key is the truthiness-based `record.model_id or "unknown"`, so both
fall under "unknown" and the whole output is unchanged when one is swapped
for the other. -/
theorem C10_empty_model_id (ts : DateTime) (fi it : String)
    (em : List EmotionIntensity) (nt : Option String)
    (ints1 ints2 : List FamiliarInteraction) (rits : List RitualOutcome) :
    emotion_counts_by_model (ints1 ++ ⟨ts, fi, it, em, nt, some ""⟩ :: ints2) rits
      = emotion_counts_by_model (ints1 ++ ⟨ts, fi, it, em, nt, none⟩ :: ints2) rits := by
  simp only [emotion_counts_by_model]
  congr 1
  rw [List.foldl_append, List.foldl_append, List.foldl_cons, List.foldl_cons]
  congr 1

/-- C6: constructing an `EmotionIntensity` succeeds exactly when the
intensity lies in the closed interval [0, 1], and in particular fails with a
`ValidationError` for -0.01 and for 1.01. -/
theorem C6_intensity_bounds :
    (∀ (name : String) (i : ℚ),
        exceptOk (mkEmotionIntensity name i) = true ↔ 0 ≤ i ∧ i ≤ 1) ∧
    mkEmotionIntensity "e" (-1/100) = .error .validation ∧
    mkEmotionIntensity "e" (101/100) = .error .validation := by
  refine ⟨?_, ?_, ?_⟩
  · intro name i
    unfold mkEmotionIntensity exceptOk
    by_cases h : 0 ≤ i ∧ i ≤ 1
    · simp [h]
    · simp [h]
  · unfold mkEmotionIntensity
    rw [if_neg (by norm_num)]
  · unfold mkEmotionIntensity
    rw [if_neg (by norm_num)]

/-- C2 counterexample: the stored emotion text "[5]" is valid JSON, so
`json.loads` succeeds, but its element is not an object; the comprehension
runs outside the `try`, so the constructor's `TypeError` propagates and the
whole `get_interactions` call fails instead of returning the row with an
empty emotion list. -/
theorem C2_typeerr_counterexample :
    deserialize_emotions "[5]" = .error .typeErr ∧
    get_interactions none none none
        [⟨"2024-01-02T03:04:05", "owl", "vision", "[5]", none, none⟩]
      = .error .typeErr := by
  constructor
  · rfl
  · rfl

/-- C2 (amended): deserializing swallows `json.loads` failures — the empty
string and any string that is not valid JSON yield the empty emotion list —
and the comprehension outside the `try` also yields an empty list without
raising on JSON values that iterate nothing (an empty array, an empty
object, an empty JSON string); every other parsed JSON value is handed to
the comprehension, whose result — including a raised error on items that
are not valid emotion objects — becomes the row's outcome. -/
theorem C2_leniency :
    (∀ s : String, s = "" ∨ jsonLoads s = none → deserialize_emotions s = .ok []) ∧
    (∀ (s : String) (v : PyVal), jsonLoads s = some v →
        deserialize_emotions s = emotionsOfVal v) ∧
    deserialize_emotions "[]" = .ok [] ∧
    deserialize_emotions "\x7b\x7d" = .ok [] ∧
    deserialize_emotions "\"\"" = .ok [] := by
  refine ⟨?_, ?_, rfl, rfl, rfl⟩
  · intro s h
    cases h with
    | inl h => rw [h]; rfl
    | inr h =>
      unfold deserialize_emotions
      by_cases hs : s = ""
      · rw [if_pos hs]
      · rw [if_neg hs, h]
  · intro s v h
    unfold deserialize_emotions
    have hs : ¬ s = "" := by
      intro he
      rw [he] at h
      exact Option.noConfusion h
    rw [if_neg hs, h]

theorem C2_leniency_witness :
    deserialize_emotions "oops" = .ok [] ∧ deserialize_emotions "" = .ok [] :=
  ⟨C2_leniency.1 "oops" (Or.inr rfl), C2_leniency.1 "" (Or.inl rfl)⟩

/-- C1 counterexample: on interactions = [] and the single successful "Moon
Rite" ritual with emotions [joy 0.8], `generate_insights` produces THREE
insights, not two — the per-emotion success/failure tally is non-empty
(joy has one successful occurrence), so the fourth pipeline stage also
fires. -/
theorem C1_insight_count_counterexample :
    (generate_insights [] [moonRite]).length = 3 ∧
    (generate_insights [] [moonRite]).length ≠ 2 := by
  constructor
  · rfl
  · decide

/-- C1 (amended): on interactions = [] and the single successful "Moon Rite"
ritual with emotions [joy 0.8], `generate_insights` returns exactly three
insights in pipeline order — the emotion-frequency insight (metrics: joy
count 1, related: top emotion joy), the success-rate insight (metrics:
success_rate 1.0 and ritual_count 1.0, related: the ritual name), and the
success-by-emotion insight (metrics: joy ratio 1.0) — with no multi-model
insight. -/
theorem C1_moon_rite_insights :
    (generate_insights [] [moonRite]).map (fun i => (i.metrics, i.related_entities))
      = [([("joy", 1)], some [("emotions", ["joy"])]),
         ([("success_rate", 1), ("ritual_count", 1)], some [("rituals", ["Moon Rite"])]),
         ([("joy", 1)], some [("emotions", ["joy"])])] := by
  norm_num [generate_insights, aggregate_emotion_counts, emotion_counts_by_model,
    ritual_success_by_emotion, compute_success_rate, moonRite, bumpCount, bumpSF,
    bumpModel, pyKey, sortDescBy, insertDescBy, maxBySnd, countEm]
